import Mathlib

/-!
# rpl-udp: peer registry and validation of the UDP server and client motes

A shallow embedding of `src/rpl-udp/udp-server.c` and `src/rpl-udp/udp-client.c`.

Modelling conventions.

* A C string is the list of its characters up to, and without, the terminator.
* The copies of a datagram are automatic arrays, whose content on entry C leaves
  indeterminate. `memcpy` overwrites the first `datalen` bytes and the source writes no
  terminator after them: its only terminator goes to `data_copy[121]`, and `new_data_copy`
  gets none. So the text the callback reads goes on, after the bytes received, into what the
  array held before. A `Datagram` carries that content (`stale_copy`, `stale_reply`) next to
  the arguments of the callback; the empty list stands for an array of terminators.
* `remotekeys[MAX_NODES][20]` is one sequence of bytes, cell `i` starting at byte `20 * i`.
  `strcpy` and `strcmp` know no end of a cell: a key of 20 characters or more goes on into
  the bytes of the next cell, and a key is read up to the first terminator.
* A write past the end of an array is followed as far as the string written goes; the other
  objects it may reach in memory (what lies after `remotekey[20]`, `valid_remotekey[20]`,
  `new_data[121]`, `data_copy[121]` and after the last cell of `remotekeys`) are not part of
  the model and are taken as untouched.
* A run of a callback on a text without a first token has no defined behaviour in C (the
  key is read without having been written): the callbacks return `none` there, and a sequence
  of events is followed only as far as every run is defined.
* An IPv6 address (`uip_ipaddr_t`, 16 bytes) is the number its bytes spell; the all-zero
  address is `0`. A port (`uint16_t`) is a number.
* The global arrays `sender_ports`, `sender_addrs` are functions of the index; only indices
  below `MAX_NODES` are cells of the arrays, and the code never touches another.
* Logging is not modelled, except that the result of a run of a callback records by which of
  its four ways the verification loop was left and whether "Received validation message" was
  logged.
* The scheduler is modelled by events: the arrival of a datagram and the expiry of a timer.
-/

namespace RplUdp

/-! ## Constants and strings -/

/-- Number of cells of the peer arrays (`#define MAX_NODES 10`). -/
def MAX_NODES : Nat := 10

/-- Size of a key buffer (`char remotekey[20]`, `remotekeys[MAX_NODES][20]`). -/
def KEY_SIZE : Nat := 20

/-- Size of the copy buffers (`char data_copy[121]`, `new_data[121]`). -/
def COPY_SIZE : Nat := 121

/-- The index at which the callbacks write the terminator of the copy
(`data_copy[121] = 0`). -/
def TERMINATOR_INDEX : Nat := 121

/-- Size of the send buffer (`static char str[120]`). -/
def STR_SIZE : Nat := 120

/-- The string terminator. -/
def NUL : Char := Char.ofNat 0

/-- The all-zero IPv6 address (`const uip_ipaddr_t uip_all_zeroes_addr`). -/
def uip_all_zeroes_addr : Nat := 0

/-- The C string that starts a byte sequence: the bytes before the first terminator. -/
def cstr (bytes : List Char) : List Char :=
  bytes.takeWhile (fun c => c != NUL)

/-- One call of `strtok(_, " ")` on the C string `s`: leading spaces are skipped; with nothing
left the call returns `NULL` (`none`); otherwise the token runs up to the next space or the
end, and the scan of the next call resumes after that space. -/
def strtok (s : List Char) : Option (List Char × List Char) :=
  match s.dropWhile (fun c => c == ' ') with
  | [] => none
  | c :: cs =>
    some ((c :: cs).takeWhile (fun d => d != ' '),
          ((c :: cs).dropWhile (fun d => d != ' ')).drop 1)

/-- The token of the second call, `strtok(NULL, " ")`. -/
def strtok_next (save : List Char) : Option (List Char) :=
  (strtok save).map Prod.fst

/-- The literal `"validate"`. -/
def VALIDATE : List Char := ['v', 'a', 'l', 'i', 'd', 'a', 't', 'e']

/-- The bytes of an array that held `old` after `memcpy(array, data, datalen)`: the bytes
received, then what the array held from index `datalen` on. -/
def memcpy (old data : List Char) : List Char :=
  data ++ old.drop data.length

/-- The bytes of a sequence `mem` after `strcpy(mem + off, s)`: the characters of `s` from
byte `off` on, then the terminator; the other bytes stay. -/
def strcpy (mem : Nat → Char) (off : Nat) (s : List Char) : Nat → Char :=
  fun k => if off ≤ k ∧ k ≤ off + s.length then s.getD (k - off) NUL else mem k

/-- The test `strcmp(mem + off, s) == 0`, for a string `s`: the bytes from `off` on are the
characters of `s`, then the terminator. -/
def strcmp_eq (mem : Nat → Char) : Nat → List Char → Bool
  | off, [] => mem off == NUL
  | off, c :: cs => mem off == c && strcmp_eq mem (off + 1) cs

/-! ## The peer arrays and the verification loop -/

/-- The three global arrays of a mote; `remotekeys` byte by byte, `remotekeys[i][j]` being
byte `KEY_SIZE * i + j`. -/
structure Tables where
  remotekeys : Nat → Char
  sender_ports : Nat → Nat
  sender_addrs : Nat → Nat

/-- The arrays at program start: static storage is zeroed. -/
def Tables.init : Tables :=
  { remotekeys := fun _ => NUL, sender_ports := fun _ => 0, sender_addrs := fun _ => 0 }

/-- The test `strcmp(remotekeys[i], key) == 0`. -/
def Tables.key_is (t : Tables) (i : Nat) (key : List Char) : Prop :=
  strcmp_eq t.remotekeys (KEY_SIZE * i) key = true

instance (t : Tables) (i : Nat) (key : List Char) : Decidable (t.key_is i key) := by
  unfold Tables.key_is; exact inferInstance

/-- The test of an empty cell:
`sender_ports[i] == 0 && uip_ipaddr_cmp(&sender_addrs[i], &uip_all_zeroes_addr)`. -/
def Tables.isEmpty (t : Tables) (i : Nat) : Prop :=
  t.sender_ports i = 0 ∧ t.sender_addrs i = uip_all_zeroes_addr

instance (t : Tables) (i : Nat) : Decidable (t.isEmpty i) := by
  unfold Tables.isEmpty; exact inferInstance

/-- The test of a known sender:
`sender_ports[i] == sender_port && memcmp(ip_ptr, sender_addr, ...) == 0`. -/
def Tables.isSender (t : Tables) (i : Nat) (sender_addr sender_port : Nat) : Prop :=
  t.sender_ports i = sender_port ∧ t.sender_addrs i = sender_addr

instance (t : Tables) (i a p : Nat) : Decidable (t.isSender i a p) := by
  unfold Tables.isSender; exact inferInstance

/-- The three writes of a registration into cell `i`: `strcpy(remotekeys[i], token)`, then
the port and the address. -/
def Tables.store (t : Tables) (i : Nat) (sender_addr sender_port : Nat) (token : List Char) :
    Tables :=
  { remotekeys := strcpy t.remotekeys (KEY_SIZE * i) token,
    sender_ports := Function.update t.sender_ports i sender_port,
    sender_addrs := Function.update t.sender_addrs i sender_addr }

/-- How the verification loop is left. The names follow the log lines of the source. -/
inductive LoopExit where
  /-- Line `break` after "is verified": the sender is in cell `i` with the same key. -/
  | verified (i : Nat)
  /-- Line `return` after "is not verified closing the communication with this node". -/
  | notVerified (i : Nat)
  /-- Line `break` after "was added to the list of known mote": cell `i` was written. -/
  | added (i : Nat)
  /-- The loop ran to `i == MAX_NODES` without leaving. -/
  | exhausted
  deriving DecidableEq, Repr

/-- The loop `for (i = 0; i < MAX_NODES; i++)` of `udp_rx_callback`, the same text in the
server and in the client: `n` iterations are left, starting at index `i`. -/
def rx_loop (t : Tables) (sender_addr sender_port : Nat) (remotekey : List Char) :
    Nat → Nat → Tables × LoopExit
  | 0, _ => (t, LoopExit.exhausted)
  | n + 1, i =>
    if t.isSender i sender_addr sender_port then
      if t.key_is i remotekey then (t, LoopExit.verified i)
      else (t, LoopExit.notVerified i)
    else if t.isEmpty i then
      (t.store i sender_addr sender_port remotekey, LoopExit.added i)
    else rx_loop t sender_addr sender_port remotekey n (i + 1)

/-- The whole loop, from index 0. -/
def verify (t : Tables) (sender_addr sender_port : Nat) (remotekey : List Char) :
    Tables × LoopExit :=
  rx_loop t sender_addr sender_port remotekey MAX_NODES 0

/-- One call of a receive callback: the sender address, the sender port and the bytes of
the datagram (`datalen` is their number), and what the automatic arrays of the callback hold
when it is entered: `stale_copy` the bytes of `data_copy`, `stale_reply` the bytes in memory
from `new_data_copy` on, as far as they are read. -/
structure Datagram where
  sender_addr : Nat
  sender_port : Nat
  data : List Char
  stale_copy : List Char := []
  stale_reply : List Char := []

/-- The array `data_copy` after `memcpy(data_copy, data, datalen)` and
`data_copy[121] = 0`: the bytes up to that terminator. -/
def data_copy (dg : Datagram) : List Char :=
  (memcpy dg.stale_copy dg.data).take TERMINATOR_INDEX

/-- The text `strtok` works on: the C string in `data_copy`. -/
def rx_text (dg : Datagram) : List Char :=
  cstr (data_copy dg)

/-- The memory from `new_data_copy` on after `memcpy(new_data_copy, data, datalen)`; no
terminator is written. -/
def new_data_copy (dg : Datagram) : List Char :=
  memcpy dg.stale_reply dg.data

/-- One call of `simple_udp_sendto(&udp_conn, text, strlen(text), dest)`. -/
structure Sent where
  text : List Char
  dest : Nat
  deriving DecidableEq, Repr

/-- Result of one run of a receive callback: the state it leaves, the datagrams it sent, in
order, the way the verification loop was left, and whether the run logged "Received
validation message". -/
structure RxResult (σ : Type) where
  state : σ
  sent : List Sent
  exit : LoopExit
  received_validation : Bool := false

/-- The `return` inside the loop: the run ends there, with no further processing. -/
def LoopExit.returns : LoopExit → Bool
  | LoopExit.notVerified _ => true
  | _ => false

/-- The key of a mote: `local_..._key[i] = rand() % 26 + 'a'` for `i` from 0 to 9, then the
terminator at index 10. `rand i` is the `i`-th value `rand()` returns after `srand(seed)`. -/
def keygen (rand : Nat → Nat) : List Char :=
  (List.range 10).map (fun i => Char.ofNat (rand i % 26 + 'a'.toNat))

/-! ## The server mote (`udp-server.c`) -/

namespace Server

/-- The globals of the server. -/
structure State where
  local_server_key : List Char
  initialSetupPUF : Bool
  validate : Bool
  servervalidate : Bool
  tab : Tables

/-- The globals at program start. -/
def State.init : State :=
  { local_server_key := ['i', 'n', 'i', 't', 'i', 'a', 'l', 'k', 'e', 'y'],
    initialSetupPUF := true, validate := false, servervalidate := false, tab := Tables.init }

/-- The text `snprintf(str, sizeof(str), "%s validate ", local_server_key)` leaves in `str`. -/
def validate_text (local_server_key : List Char) : List Char :=
  (local_server_key ++ [' '] ++ VALIDATE ++ [' ']).take (STR_SIZE - 1)

/-- The loop of the block `if(validate)`: for every cell whose first key byte is not the
terminator (`strcpy(valid_remotekey, remotekeys[i])`, then `valid_remotekey[0] != 0`; the
pointer test `valid_ip_pt` always holds), one datagram to the address of the cell. -/
def send_validation (s : State) : List Sent :=
  ((List.range MAX_NODES).filter (fun i => s.tab.remotekeys (KEY_SIZE * i) != NUL)).map
    (fun i => { text := validate_text s.local_server_key, dest := s.tab.sender_addrs i })

/-- The echo reply: `sprintf(new_data, "%s %s", local_server_key,
new_data_copy + strlen(remotekey) + 1)`, sent to `sender_addr`. The second string is read
from `new_data_copy` up to the first terminator found. -/
def echo_reply (s : State) (dg : Datagram) (remotekey : List Char) : Sent :=
  { text := s.local_server_key ++ [' '] ++
      cstr ((new_data_copy dg).drop (remotekey.length + 1)),
    dest := dg.sender_addr }

/-- The callback once `token` is not `NULL`; `save` is where `strtok` resumes. -/
def rx_body (s : State) (dg : Datagram) (token save : List Char) : RxResult State :=
  let remotekey := token
  let r := verify s.tab dg.sender_addr dg.sender_port remotekey
  if r.2.returns then { state := s, sent := [], exit := r.2 }
  else
    let s1 : State := { s with tab := r.1 }
    let taken := strtok_next save
    let s2 : State := if taken = some VALIDATE then { s1 with servervalidate := true } else s1
    let s3 : State := if s2.servervalidate then { s2 with servervalidate := false } else s2
    let validation := if s3.validate then send_validation s3 else []
    let s4 : State := if s3.validate then { s3 with validate := false } else s3
    { state := s4, sent := validation ++ [echo_reply s4 dg remotekey], exit := r.2,
      received_validation := decide (taken = some VALIDATE) }

/-- The receive callback of the server. With no first token (`token == NULL`) `remotekey` is
never written and every path reads it or copies from `token`: the run has no defined
behaviour (`none`). -/
def udp_rx_callback (s : State) (dg : Datagram) : Option (RxResult State) :=
  match strtok (rx_text dg) with
  | none => none
  | some (token, save) => some (rx_body s dg token save)

/-- The start of `udp_server_process`, up to the registration of the callback: the key is
produced while `initialSetupPUF` holds. -/
def process_begin (rand : Nat → Nat) (s : State) : State :=
  if s.initialSetupPUF then
    { s with local_server_key := keygen rand, initialSetupPUF := false }
  else s

/-- One expiry of the timer `et` in the loop of `udp_server_process`: `validate=true`. -/
def timer_expired (s : State) : State :=
  { s with validate := true }

/-- What the scheduler delivers to the server. -/
inductive Event where
  | rx (dg : Datagram)
  | timer

/-- One event: the state it leaves and the datagrams sent while it is handled. -/
def step (s : State) : Event → Option (State × List Sent)
  | Event.rx dg => (udp_rx_callback s dg).map (fun r => (r.state, r.sent))
  | Event.timer => some (timer_expired s, [])

/-- The states of a running server: after the start of the process, any events. -/
inductive Reachable : State → Prop where
  | start (rand : Nat → Nat) : Reachable (process_begin rand State.init)
  | step {s : State} (h : Reachable s) (e : Event) {s1 : State} {out : List Sent}
      (he : step s e = some (s1, out)) : Reachable s1

/-- A sequence of events, one after the other: the state left and all the datagrams sent. -/
def run (s : State) : List Event → Option (State × List Sent)
  | [] => some (s, [])
  | e :: es =>
    match step s e with
    | none => none
    | some (s1, out) =>
      match run s1 es with
      | none => none
      | some (s2, out2) => some (s2, out ++ out2)

end Server

/-! ## The client mote (`udp-client.c`) -/

namespace Client

/-- The globals and the static counters of the client. -/
structure State where
  local_client_key : List Char
  initialSetupPUF : Bool
  validate : Bool
  tab : Tables
  rx_count : Nat
  tx_count : Nat
  missed_tx_count : Nat

/-- The globals at program start. -/
def State.init : State :=
  { local_client_key := ['i', 'n', 'i', 't', 'i', 'a', 'l', 'k', 'e', 'y'],
    initialSetupPUF := true, validate := false, tab := Tables.init,
    rx_count := 0, tx_count := 0, missed_tx_count := 0 }

/-- The callback once `token` is not `NULL`; `save` is where `strtok` resumes. -/
def rx_body (s : State) (dg : Datagram) (token save : List Char) : RxResult State :=
  let remotekey := token
  let taken := strtok_next save
  let s1 : State := if taken = some VALIDATE then { s with validate := true } else s
  let r := verify s1.tab dg.sender_addr dg.sender_port remotekey
  if r.2.returns then
    { state := s1, sent := [], exit := r.2,
      received_validation := decide (taken = some VALIDATE) }
  else
    let s2 : State := { s1 with tab := r.1 }
    let s3 : State := if s2.validate then { s2 with validate := false } else s2
    { state := { s3 with rx_count := (s3.rx_count + 1) % 2 ^ 32 }, sent := [], exit := r.2,
      received_validation := decide (taken = some VALIDATE) }

/-- The receive callback of the client. With no first token `remotekey` is never written and
every path reads it or copies from `token`: the run has no defined behaviour (`none`). -/
def udp_rx_callback (s : State) (dg : Datagram) : Option (RxResult State) :=
  match strtok (rx_text dg) with
  | none => none
  | some (token, save) => some (rx_body s dg token save)

/-- The start of `udp_client_process`, up to the registration of the callback. -/
def process_begin (rand : Nat → Nat) (s : State) : State :=
  if s.initialSetupPUF then
    { s with local_client_key := keygen rand, initialSetupPUF := false }
  else s

/-- The text `snprintf(str, sizeof(str), "%s hello %u", local_client_key, tx_count)`. -/
def hello_text (local_client_key : List Char) (tx_count : Nat) : List Char :=
  (local_client_key ++ [' ', 'h', 'e', 'l', 'l', 'o', ' '] ++ Nat.toDigits 10 tx_count).take
    (STR_SIZE - 1)

/-- One expiry of `periodic_timer`. `route` is `some dest` when
`NETSTACK_ROUTING.node_is_reachable() && NETSTACK_ROUTING.get_root_ipaddr(&dest_ipaddr)`
holds, with the address it wrote. -/
def timer_expired (s : State) (route : Option Nat) : State × List Sent :=
  match route with
  | some dest_ipaddr =>
    ({ s with tx_count := (s.tx_count + 1) % 2 ^ 32 },
     [{ text := hello_text s.local_client_key s.tx_count, dest := dest_ipaddr }])
  | none =>
    if s.tx_count > 0 then
      ({ s with missed_tx_count := (s.missed_tx_count + 1) % 2 ^ 32 }, [])
    else (s, [])

/-- What the scheduler delivers to the client. -/
inductive Event where
  | rx (dg : Datagram)
  | timer (route : Option Nat)

/-- One event: the state it leaves and the datagrams sent while it is handled. -/
def step (s : State) : Event → Option (State × List Sent)
  | Event.rx dg => (udp_rx_callback s dg).map (fun r => (r.state, r.sent))
  | Event.timer route => some (timer_expired s route)

/-- The states of a running client: after the start of the process, any events. -/
inductive Reachable : State → Prop where
  | start (rand : Nat → Nat) : Reachable (process_begin rand State.init)
  | step {s : State} (h : Reachable s) (e : Event) {s1 : State} {out : List Sent}
      (he : step s e = some (s1, out)) : Reachable s1

/-- A sequence of events, one after the other: the state left and all the datagrams sent. -/
def run (s : State) : List Event → Option (State × List Sent)
  | [] => some (s, [])
  | e :: es =>
    match step s e with
    | none => none
    | some (s1, out) =>
      match run s1 es with
      | none => none
      | some (s2, out2) => some (s2, out ++ out2)

end Client


/-! ## Predicates on the arrays -/

/-- The cells from `i` up to `j` (excluded) are neither the sender nor empty: the loop passes
them. -/
def Tables.Passed (t : Tables) (sender_addr sender_port i j : Nat) : Prop :=
  ∀ m, i ≤ m → m < j → ¬ t.isSender m sender_addr sender_port ∧ ¬ t.isEmpty m

/-- The shape of the arrays of a running mote: nothing outside the ten cells, the occupied
cells come first, no endpoint is in two cells, and the key of an occupied cell does not start
with the terminator. -/
structure Tables.WF (t : Tables) : Prop where
  outside : ∀ i, MAX_NODES ≤ i → t.isEmpty i
  front : ∀ i j, j < i → ¬ t.isEmpty i → ¬ t.isEmpty j
  unique : ∀ i j, ¬ t.isEmpty i → t.sender_ports i = t.sender_ports j →
    t.sender_addrs i = t.sender_addrs j → i = j
  keyed : ∀ i, ¬ t.isEmpty i → t.remotekeys (KEY_SIZE * i) ≠ NUL

/-! ## Scenario data -/

/-- A sequence of draws: the key it gives is `abcdefghij`. -/
def exRand : Nat → Nat := fun i => i

/-- The server after the start of its process, with key `abcdefghij`. -/
def exServer0 : Server.State := Server.process_begin exRand Server.State.init

/-- The client after the start of its process, with key `abcdefghij`. -/
def exClient0 : Client.State := Client.process_begin exRand Client.State.init

/-- The key of peer A in the scenarios of the specification. -/
def exKeyA : List Char := "abc123xyz0".data

/-- Scenario A: peer A, at address 1 and port 8765, sends `abc123xyz0 hello 0`. -/
def exHello0 : Datagram :=
  { sender_addr := 1, sender_port := 8765, data := "abc123xyz0 hello 0".data }

/-- Scenario B: peer A sends `abc123xyz0 hello 1`. -/
def exHello1 : Datagram :=
  { sender_addr := 1, sender_port := 8765, data := "abc123xyz0 hello 1".data }

/-- Scenario C: the endpoint of peer A sends `zzz999yyy1 hello 2`. -/
def exAttack : Datagram :=
  { sender_addr := 1, sender_port := 8765, data := "zzz999yyy1 hello 2".data }

/-- A second peer, at address 2 and port 8765, sends `qrs456tuv7 hello 0`. -/
def exHelloB : Datagram :=
  { sender_addr := 2, sender_port := 8765, data := "qrs456tuv7 hello 0".data }

/-- The server after scenario A. -/
def exServer1 : Server.State :=
  (Server.rx_body exServer0 exHello0 exKeyA "hello 0".data).state

/-- The server after scenario A and the message of the second peer. -/
def exServer2 : Server.State :=
  (Server.rx_body exServer1 exHelloB "qrs456tuv7".data "hello 0".data).state

/-- The client after it received the message of scenario A. -/
def exClient1 : Client.State :=
  (Client.rx_body exClient0 exHello0 exKeyA "hello 0".data).state

/-- A datagram from the all-zero address and port 0, with the text `abc hello 0`. -/
def exZero : Datagram :=
  { sender_addr := 0, sender_port := 0, data := "abc hello 0".data }

/-- The message `abc123xyz0 hello 0` from address `a` and port 8765. -/
def exHelloFrom (a : Nat) : Datagram :=
  { sender_addr := a, sender_port := 8765, data := "abc123xyz0 hello 0".data }

/-- The server after ten peers, at addresses 1 to 10, sent their first message. -/
def exServerFull : Server.State :=
  match Server.run exServer0
    ((List.range MAX_NODES).map (fun i => Server.Event.rx (exHelloFrom (i + 1)))) with
  | some (s, _) => s
  | none => exServer0

/-- Scenario E: an eleventh endpoint, at address 11, sends `klm789nop1 hello 0`. -/
def exEleventh : Datagram :=
  { sender_addr := 11, sender_port := 8765, data := "klm789nop1 hello 0".data }

/-- The text ` abc hello 0`, with a space before the key, from address 1 and port 8765. -/
def exLeading : Datagram :=
  { sender_addr := 1, sender_port := 8765, data := " abc hello 0".data }

/-- The endpoint of peer A sends `zzz999yyy1 validate `: another key, and the verb `validate`. -/
def exAttackValidate : Datagram :=
  { sender_addr := 1, sender_port := 8765, data := "zzz999yyy1 validate ".data }

/-- A datagram of length zero, from address 1 and port 8765. -/
def exEmpty : Datagram :=
  { sender_addr := 1, sender_port := 8765, data := [] }

/-- A datagram of three spaces, from address 1 and port 8765. -/
def exSpaces : Datagram :=
  { sender_addr := 1, sender_port := 8765, data := "   ".data }

/-! ## A run without key -/

/-- The first place where a run of the callback uses the key, when the datagram has no first
token (`token == NULL`, `remotekey` not written). -/
inductive KeyUse where
  /-- `strcmp(remotekeys[i], remotekey)`: the sender is in cell `i`, the key read was never
  written. -/
  | strcmp_unwritten (i : Nat)
  /-- `strcpy(remotekeys[i], token)`: cell `i` is empty, the copy reads from `NULL`. -/
  | strcpy_null (i : Nat)
  /-- The loop passes every cell; the key is read after it (`"%s"` of `remotekey` in the log
  of the request, and `strlen(remotekey)` for the reply of the server). -/
  | after_loop
  deriving DecidableEq, Repr

/-- The loop `for (i = 0; i < MAX_NODES; i++)` when `token == NULL`: the same tests as
`rx_loop`, stopped at the first statement that uses the key. -/
def first_key_use (t : Tables) (sender_addr sender_port : Nat) : Nat → Nat → KeyUse
  | 0, _ => KeyUse.after_loop
  | n + 1, i =>
    if t.isSender i sender_addr sender_port then KeyUse.strcmp_unwritten i
    else if t.isEmpty i then KeyUse.strcpy_null i
    else first_key_use t sender_addr sender_port n (i + 1)

/-! ## Decoding in the words of the specification -/

/-- Field 0 of a text split on single spaces: the text before the first space. -/
def spec_field0 (text : List Char) : List Char :=
  text.takeWhile (fun d => d != ' ')

/-- Field 1 of a text split on single spaces: the text between the first space and the
second (or the end); there is none when the text has no space. -/
def spec_field1 (text : List Char) : Option (List Char) :=
  match text.dropWhile (fun d => d != ' ') with
  | [] => none
  | _ :: rest => some (rest.takeWhile (fun d => d != ' '))

/-- The literal `"hello"`. -/
def HELLO : List Char := ['h', 'e', 'l', 'l', 'o']

/-- The endpoint of peer A sends `zzz999yyy1  validate `, with two spaces after the key. -/
def exDouble : Datagram :=
  { sender_addr := 1, sender_port := 8765, data := "zzz999yyy1  validate ".data }

/-- A datagram of 131 bytes from address 1 and port 8765: `abc123xyz0`, a space, and 120
times `x`. -/
def exLong : Datagram :=
  { sender_addr := 1, sender_port := 8765,
    data := "abc123xyz0 ".data ++ List.replicate 120 'x' }

/-- The server at address 1 and port 5678 sends its challenge `abc123xyz0 validate `. -/
def exChallenge : Datagram :=
  { sender_addr := 1, sender_port := 5678, data := "abc123xyz0 validate ".data }

/-- A datagram of 120 bytes from address 1 and port 8765: the key `a`, a space, and 118 times
`x`. -/
def exShortKey : Datagram :=
  { sender_addr := 1, sender_port := 8765, data := "a ".data ++ List.replicate 118 'x' }

/-! ## Scenario data: long keys and stale bytes -/

/-- A key of 20 characters, one more than a key buffer holds with its terminator. -/
def exKey20 : List Char := "abcdefghijklmnopqrst".data

/-- The peer at address 1 and port 8765 sends `abcdefghijklmnopqrst hello 0`. -/
def exLongKey0 : Datagram :=
  { sender_addr := 1, sender_port := 8765, data := "abcdefghijklmnopqrst hello 0".data }

/-- The same peer sends `abcdefghijklmnopqrst hello 1`. -/
def exLongKey1 : Datagram :=
  { sender_addr := 1, sender_port := 8765, data := "abcdefghijklmnopqrst hello 1".data }

/-- The server after `exLongKey0`. -/
def exServerK20 : Server.State :=
  (Server.rx_body exServer0 exLongKey0 exKey20 "hello 0".data).state

/-- The server after `exLongKey0` and the first message of the second peer. -/
def exServerK20B : Server.State :=
  (Server.rx_body exServerK20 exHelloB "qrs456tuv7".data "hello 0".data).state

/-- The client after `exLongKey0`. -/
def exClientK20 : Client.State :=
  (Client.rx_body exClient0 exLongKey0 exKey20 "hello 0".data).state

/-- The client after `exLongKey0` and the first message of the second peer. -/
def exClientK20B : Client.State :=
  (Client.rx_body exClientK20 exHelloB "qrs456tuv7".data "hello 0".data).state

/-- What `data_copy` holds after a run on `abc123xyz0 hello 0`: `strtok` has put terminators
in the place of the two spaces. -/
def exLeftCopy : List Char :=
  "abc123xyz0".data ++ [NUL] ++ "hello".data ++ [NUL] ++ ['0']

/-- The endpoint of peer A sends the 3 bytes `abc`, and the automatic arrays still hold what
the run on `abc123xyz0 hello 0` left in them. -/
def exBare : Datagram :=
  { sender_addr := 1, sender_port := 8765, data := "abc".data,
    stale_copy := exLeftCopy, stale_reply := "abc123xyz0 hello 0".data }

/-- Peer A sends `abc123xyz0 hello 2`, and `new_data_copy` still holds the 19 bytes
`abc123xyz0 hello 10` of the run before. -/
def exHello2Stale : Datagram :=
  { sender_addr := 1, sender_port := 8765, data := "abc123xyz0 hello 2".data,
    stale_copy := "abc123xyz0".data ++ [NUL] ++ "hello".data ++ [NUL] ++ ['1', '0'],
    stale_reply := "abc123xyz0 hello 10".data }

/-- The peer at address 1 and port 8765 sends `ABCDEFGHIJKLMNOPQRSTUVWXY hello 0`, with a key
of 25 characters. -/
def exSpill : Datagram :=
  { sender_addr := 1, sender_port := 8765, data := "ABCDEFGHIJKLMNOPQRSTUVWXY hello 0".data }

/-- The server after `exSpill`. -/
def exServerK25 : Server.State :=
  (Server.rx_body exServer0 exSpill "ABCDEFGHIJKLMNOPQRSTUVWXY".data "hello 0".data).state

/-- The client after `exSpill`. -/
def exClientK25 : Client.State :=
  (Client.rx_body exClient0 exSpill "ABCDEFGHIJKLMNOPQRSTUVWXY".data "hello 0".data).state

/-- A datagram from the all-zero address and port 0, with the text `UVWXY hello 0`. -/
def exZeroSpill : Datagram :=
  { sender_addr := 0, sender_port := 0, data := "UVWXY hello 0".data }

/-- The client receives `zz validate`, and `data_copy` still holds what a run on
`abcdefghij hello 0` left. -/
def exVerbStale : Datagram :=
  { sender_addr := 1, sender_port := 5678, data := "zz validate".data,
    stale_copy := "abcdefghij".data ++ [NUL] ++ "hello".data ++ [NUL] ++ ['0'] }

/-! ## Facts on the verification loop -/

theorem rx_loop_skip (t : Tables) (a p : Nat) (k : List Char) (n : Nat) :
    ∀ (d i : Nat), t.Passed a p i (i + d) →
      rx_loop t a p k (d + n) i = rx_loop t a p k n (i + d) := by
  intro d
  induction d with
  | zero => intro i _; simp
  | succ d ih =>
    intro i h
    have hi := h i (le_refl i) (by omega)
    have e : d + 1 + n = (d + n) + 1 := by omega
    rw [e, rx_loop, if_neg hi.1, if_neg hi.2, ih (i + 1)]
    · congr 1; omega
    · intro m h1 h2; exact h m (by omega) (by omega)

theorem rx_loop_cases (t : Tables) (a p : Nat) (k : List Char) :
    ∀ (n i : Nat),
      (∃ j, i ≤ j ∧ j < i + n ∧ t.Passed a p i j ∧ t.isSender j a p ∧ t.key_is j k ∧
        rx_loop t a p k n i = (t, LoopExit.verified j)) ∨
      (∃ j, i ≤ j ∧ j < i + n ∧ t.Passed a p i j ∧ t.isSender j a p ∧ ¬ t.key_is j k ∧
        rx_loop t a p k n i = (t, LoopExit.notVerified j)) ∨
      (∃ j, i ≤ j ∧ j < i + n ∧ t.Passed a p i j ∧ ¬ t.isSender j a p ∧ t.isEmpty j ∧
        rx_loop t a p k n i = (t.store j a p k, LoopExit.added j)) ∨
      (t.Passed a p i (i + n) ∧ rx_loop t a p k n i = (t, LoopExit.exhausted)) := by
  intro n
  induction n with
  | zero =>
    intro i
    right; right; right
    exact ⟨fun m h1 h2 => absurd h2 (by omega), rfl⟩
  | succ n ih =>
    intro i
    have hp0 : t.Passed a p i i := fun m h1 h2 => absurd h2 (by omega)
    by_cases hs : t.isSender i a p
    · by_cases hk : t.key_is i k
      · left
        exact ⟨i, le_refl i, by omega, hp0, hs, hk, by rw [rx_loop, if_pos hs, if_pos hk]⟩
      · right; left
        exact ⟨i, le_refl i, by omega, hp0, hs, hk, by rw [rx_loop, if_pos hs, if_neg hk]⟩
    · by_cases he : t.isEmpty i
      · right; right; left
        exact ⟨i, le_refl i, by omega, hp0, hs, he, by rw [rx_loop, if_neg hs, if_pos he]⟩
      · have step : rx_loop t a p k (n + 1) i = rx_loop t a p k n (i + 1) := by
          rw [rx_loop, if_neg hs, if_neg he]
        have ext : ∀ j, i + 1 ≤ j → t.Passed a p (i + 1) j → t.Passed a p i j := by
          intro j _ hp m h1 h2
          by_cases hm : m = i
          · subst hm; exact ⟨hs, he⟩
          · exact hp m (by omega) h2
        rcases ih (i + 1) with ⟨j, h1, h2, h3, h4, h5, h6⟩ | ⟨j, h1, h2, h3, h4, h5, h6⟩ |
          ⟨j, h1, h2, h3, h4, h5, h6⟩ | ⟨h1, h2⟩
        · left
          exact ⟨j, by omega, by omega, ext j h1 h3, h4, h5, by rw [step, h6]⟩
        · right; left
          exact ⟨j, by omega, by omega, ext j h1 h3, h4, h5, by rw [step, h6]⟩
        · right; right; left
          exact ⟨j, by omega, by omega, ext j h1 h3, h4, h5, by rw [step, h6]⟩
        · right; right; right
          refine ⟨?_, by rw [step, h2]⟩
          have e : i + (n + 1) = i + 1 + n := by omega
          rw [e]
          exact ext _ (by omega) h1

theorem verify_cases (t : Tables) (a p : Nat) (k : List Char) :
    (∃ j, j < MAX_NODES ∧ t.Passed a p 0 j ∧ t.isSender j a p ∧ t.key_is j k ∧
      verify t a p k = (t, LoopExit.verified j)) ∨
    (∃ j, j < MAX_NODES ∧ t.Passed a p 0 j ∧ t.isSender j a p ∧ ¬ t.key_is j k ∧
      verify t a p k = (t, LoopExit.notVerified j)) ∨
    (∃ j, j < MAX_NODES ∧ t.Passed a p 0 j ∧ ¬ t.isSender j a p ∧ t.isEmpty j ∧
      verify t a p k = (t.store j a p k, LoopExit.added j)) ∨
    (t.Passed a p 0 MAX_NODES ∧ verify t a p k = (t, LoopExit.exhausted)) := by
  have h := rx_loop_cases t a p k MAX_NODES 0
  simp only [Nat.zero_add] at h
  rcases h with ⟨j, _, h2, h3, h4, h5, h6⟩ | ⟨j, _, h2, h3, h4, h5, h6⟩ |
    ⟨j, _, h2, h3, h4, h5, h6⟩ | h
  · exact Or.inl ⟨j, h2, h3, h4, h5, h6⟩
  · exact Or.inr (Or.inl ⟨j, h2, h3, h4, h5, h6⟩)
  · exact Or.inr (Or.inr (Or.inl ⟨j, h2, h3, h4, h5, h6⟩))
  · exact Or.inr (Or.inr (Or.inr h))

theorem verify_at (t : Tables) (a p : Nat) (k : List Char) (j : Nat) (hj : j < MAX_NODES)
    (hp : t.Passed a p 0 j) :
    verify t a p k =
      if t.isSender j a p then
        if t.key_is j k then (t, LoopExit.verified j) else (t, LoopExit.notVerified j)
      else if t.isEmpty j then (t.store j a p k, LoopExit.added j)
      else rx_loop t a p k (MAX_NODES - j - 1) (j + 1) := by
  have e : MAX_NODES = j + (MAX_NODES - j - 1 + 1) := by omega
  have hp2 : t.Passed a p 0 (0 + j) := by simpa using hp
  unfold verify
  conv_lhs => rw [e]
  rw [rx_loop_skip t a p k _ j 0 hp2, rx_loop]
  simp only [Nat.zero_add]

theorem verify_sender (t : Tables) (a p : Nat) (k : List Char) (j : Nat) (hj : j < MAX_NODES)
    (hp : t.Passed a p 0 j) (hs : t.isSender j a p) :
    verify t a p k =
      if t.key_is j k then (t, LoopExit.verified j) else (t, LoopExit.notVerified j) := by
  rw [verify_at t a p k j hj hp, if_pos hs]

theorem verify_empty (t : Tables) (a p : Nat) (k : List Char) (j : Nat) (hj : j < MAX_NODES)
    (hp : t.Passed a p 0 j) (hs : ¬ t.isSender j a p) (he : t.isEmpty j) :
    verify t a p k = (t.store j a p k, LoopExit.added j) := by
  rw [verify_at t a p k j hj hp, if_neg hs, if_pos he]

theorem verify_exhausted (t : Tables) (a p : Nat) (k : List Char)
    (hp : t.Passed a p 0 MAX_NODES) : verify t a p k = (t, LoopExit.exhausted) := by
  rcases verify_cases t a p k with ⟨j, h2, _, h4, _, _⟩ | ⟨j, h2, _, h4, _, _⟩ |
    ⟨j, h2, _, _, h5, _⟩ | h
  · exact absurd h4 (hp j (Nat.zero_le j) h2).1
  · exact absurd h4 (hp j (Nat.zero_le j) h2).1
  · exact absurd h5 (hp j (Nat.zero_le j) h2).2
  · exact h.2

theorem store_ports (t : Tables) (j a p : Nat) (k : List Char) (m : Nat) :
    (t.store j a p k).sender_ports m = if m = j then p else t.sender_ports m := by
  simp [Tables.store, Function.update_apply]

theorem store_addrs (t : Tables) (j a p : Nat) (k : List Char) (m : Nat) :
    (t.store j a p k).sender_addrs m = if m = j then a else t.sender_addrs m := by
  simp [Tables.store, Function.update_apply]

theorem store_keys (t : Tables) (j a p : Nat) (k : List Char) (x : Nat) :
    (t.store j a p k).remotekeys x =
      if KEY_SIZE * j ≤ x ∧ x ≤ KEY_SIZE * j + k.length then k.getD (x - KEY_SIZE * j) NUL
      else t.remotekeys x := rfl

theorem store_keys_below (t : Tables) (j a p : Nat) (k : List Char) (x : Nat)
    (hx : x < KEY_SIZE * j) : (t.store j a p k).remotekeys x = t.remotekeys x := by
  rw [store_keys, if_neg]
  intro h
  omega

/-- A run of the loop leaves the port and the address of every occupied cell as they were. -/
theorem verify_frame (t : Tables) (a p : Nat) (k : List Char) (m : Nat)
    (hm : ¬ t.isEmpty m) :
    (verify t a p k).1.sender_ports m = t.sender_ports m ∧
    (verify t a p k).1.sender_addrs m = t.sender_addrs m := by
  rcases verify_cases t a p k with ⟨j, _, _, _, _, h⟩ | ⟨j, _, _, _, _, h⟩ |
    ⟨j, _, _, _, h5, h⟩ | ⟨_, h⟩
  · rw [h]; exact ⟨rfl, rfl⟩
  · rw [h]; exact ⟨rfl, rfl⟩
  · have hne : m ≠ j := fun e => hm (e ▸ h5)
    rw [h]
    simp only [store_ports, store_addrs, if_neg hne]
    exact ⟨trivial, trivial⟩
  · rw [h]; exact ⟨rfl, rfl⟩

theorem wf_init : Tables.init.WF := by
  refine ⟨?_, ?_, ?_, ?_⟩
  · intro i _; exact ⟨rfl, rfl⟩
  · intro i j _ h; exact absurd ⟨rfl, rfl⟩ h
  · intro i j h; exact absurd ⟨rfl, rfl⟩ h
  · intro i h; exact absurd ⟨rfl, rfl⟩ h

theorem sender_not_zero (t : Tables) (a p i : Nat) (hs : ¬ t.isSender i a p)
    (he : t.isEmpty i) : ¬ (p = 0 ∧ a = 0) := by
  intro h
  apply hs
  unfold Tables.isSender
  unfold Tables.isEmpty uip_all_zeroes_addr at he
  rw [he.1, he.2, h.1, h.2]
  exact ⟨rfl, rfl⟩

theorem store_isEmpty (t : Tables) (a p : Nat) (k : List Char) (j : Nat)
    (hs : ¬ t.isSender j a p) (he : t.isEmpty j) (m : Nat) :
    (t.store j a p k).isEmpty m ↔ (m ≠ j ∧ t.isEmpty m) := by
  have hne := sender_not_zero t a p j hs he
  unfold Tables.isEmpty
  rw [store_ports, store_addrs]
  by_cases hm : m = j
  · simp only [if_pos hm, uip_all_zeroes_addr]
    constructor
    · intro h; exact absurd h hne
    · intro h; exact absurd hm h.1
  · simp only [if_neg hm]
    constructor
    · intro h; exact ⟨hm, h⟩
    · intro h; exact h.2

theorem wf_store (t : Tables) (a p : Nat) (k : List Char) (j : Nat) (hw : t.WF)
    (hk : k.head? ≠ none ∧ k.head? ≠ some NUL) (hj : j < MAX_NODES)
    (hp : t.Passed a p 0 j) (hs : ¬ t.isSender j a p)
    (he : t.isEmpty j) : (t.store j a p k).WF := by
  have hne := sender_not_zero t a p j hs he
  have emp := store_isEmpty t a p k j hs he
  have later : ∀ m, j < m → t.isEmpty m := by
    intro m hm
    by_contra hc
    exact hw.front m j hm hc he
  have nosender : ∀ m, m ≠ j → ¬ t.isSender m a p := by
    intro m hm hsm
    rcases Nat.lt_or_gt_of_ne hm with h | h
    · exact (hp m (Nat.zero_le m) h).1 hsm
    · have := later m h
      unfold Tables.isSender at hsm
      unfold Tables.isEmpty uip_all_zeroes_addr at this
      exact hne ⟨hsm.1 ▸ this.1, hsm.2 ▸ this.2⟩
  refine ⟨?_, ?_, ?_, ?_⟩
  · intro i hi
    exact (emp i).2 ⟨by omega, hw.outside i hi⟩
  · intro i m hmi hi hm
    have hm2 := (emp m).1 hm
    by_cases hij : i = j
    · subst hij
      exact (hp m (Nat.zero_le m) hmi).2 hm2.2
    · have : ¬ t.isEmpty i := fun h => hi ((emp i).2 ⟨hij, h⟩)
      exact hw.front i m hmi this hm2.2
  · intro i m hi h1 h2
    rw [store_ports, store_ports] at h1
    rw [store_addrs, store_addrs] at h2
    by_cases hij : i = j
    · by_cases hmj : m = j
      · rw [hij, hmj]
      · rw [if_pos hij, if_neg hmj] at h1 h2
        exact absurd ⟨h1.symm, h2.symm⟩ (nosender m hmj)
    · by_cases hmj : m = j
      · rw [if_neg hij, if_pos hmj] at h1 h2
        exact absurd ⟨h1, h2⟩ (nosender i hij)
      · rw [if_neg hij, if_neg hmj] at h1 h2
        have : ¬ t.isEmpty i := fun h => hi ((emp i).2 ⟨hij, h⟩)
        exact hw.unique i m this h1 h2
  · intro i hi
    by_cases hij : i = j
    · subst hij
      rw [store_keys, if_pos ⟨le_refl _, Nat.le_add_right _ _⟩, Nat.sub_self]
      cases k with
      | nil => exact absurd rfl hk.1
      | cons c cs =>
        intro h
        apply hk.2
        simp only [List.getD_cons_zero] at h
        simp [h]
    · have hocc : ¬ t.isEmpty i := fun h => hi ((emp i).2 ⟨hij, h⟩)
      have hlt : i < j := by
        rcases Nat.lt_or_gt_of_ne hij with h | h
        · exact h
        · exact absurd (later i h) hocc
      rw [store_keys_below t j a p k _ (by unfold KEY_SIZE; omega)]
      exact hw.keyed i hocc

theorem wf_verify (t : Tables) (a p : Nat) (k : List Char) (hw : t.WF)
    (hk : k.head? ≠ none ∧ k.head? ≠ some NUL) : (verify t a p k).1.WF := by
  rcases verify_cases t a p k with ⟨j, _, _, _, _, h⟩ | ⟨j, _, _, _, _, h⟩ |
    ⟨j, h2, h3, h4, h5, h⟩ | ⟨_, h⟩
  · rw [h]; exact hw
  · rw [h]; exact hw
  · rw [h]; exact wf_store t a p k j hw hk h2 h3 h4 h5
  · rw [h]; exact hw

theorem dropWhile_head_false {α : Type} (q : α → Bool) :
    ∀ (l : List α) (c : α) (cs : List α), l.dropWhile q = c :: cs → q c = false := by
  intro l
  induction l with
  | nil => intro c cs h; simp at h
  | cons x xs ih =>
    intro c cs h
    by_cases hx : q x = true
    · rw [List.dropWhile_cons_of_pos hx] at h
      exact ih c cs h
    · rw [List.dropWhile_cons_of_neg hx] at h
      injection h with h1 _
      rw [← h1]
      simpa using hx

theorem strtok_token_ne_nil (s tok save : List Char) (h : strtok s = some (tok, save)) :
    tok ≠ [] := by
  unfold strtok at h
  split at h
  · simp at h
  · rename_i c cs hd
    have hc := dropWhile_head_false _ s c cs hd
    simp only [Option.some.injEq, Prod.mk.injEq] at h
    rw [← h.1]
    have hc2 : (c != ' ') = true := by
      simp only [bne_iff_ne, ne_eq]
      simpa using hc
    simp only [List.takeWhile_cons, hc2, if_true]
    exact List.cons_ne_nil _ _


theorem cstr_no_nul (bytes : List Char) : ∀ c ∈ cstr bytes, c ≠ NUL := by
  intro c hc
  unfold cstr at hc
  have := List.mem_takeWhile_imp hc
  simpa using this

theorem strtok_token_subset (s tok save : List Char) (h : strtok s = some (tok, save)) :
    ∀ c ∈ tok, c ∈ s := by
  unfold strtok at h
  split at h
  · simp at h
  · rename_i c cs hd
    simp only [Option.some.injEq, Prod.mk.injEq] at h
    intro x hx
    rw [← h.1] at hx
    have h1 : x ∈ c :: cs := (List.takeWhile_sublist _).subset hx
    rw [← hd] at h1
    exact (List.dropWhile_sublist _).subset h1

theorem token_head (dg : Datagram) (tok save : List Char)
    (h : strtok (rx_text dg) = some (tok, save)) :
    tok.head? ≠ none ∧ tok.head? ≠ some NUL := by
  have hne := strtok_token_ne_nil _ _ _ h
  have hsub := strtok_token_subset _ _ _ h
  cases tok with
  | nil => exact absurd rfl hne
  | cons c cs =>
    refine ⟨by simp, ?_⟩
    intro hc
    simp only [List.head?_cons, Option.some.injEq] at hc
    exact cstr_no_nul _ c (hsub c (List.mem_cons_self c cs)) hc
/-! ## Facts on the callbacks -/

theorem returns_iff (e : LoopExit) : e.returns = true ↔ ∃ i, e = LoopExit.notVerified i := by
  cases e <;> simp [LoopExit.returns]

theorem verify_returns_tab (t : Tables) (a p : Nat) (k : List Char)
    (h : (verify t a p k).2.returns = true) : (verify t a p k).1 = t := by
  rcases verify_cases t a p k with ⟨j, _, _, _, _, e⟩ | ⟨j, _, _, _, _, e⟩ |
    ⟨j, _, _, _, _, e⟩ | ⟨_, e⟩
  · rw [e]
  · rw [e]
  · rw [e] at h; simp [LoopExit.returns] at h
  · rw [e]

theorem server_rx_some (s : Server.State) (dg : Datagram) (K save : List Char)
    (h : strtok (rx_text dg) = some (K, save)) :
    Server.udp_rx_callback s dg = some (Server.rx_body s dg K save) := by
  unfold Server.udp_rx_callback
  rw [h]

theorem server_rx_inv (s : Server.State) (dg : Datagram) (r : RxResult Server.State)
    (h : Server.udp_rx_callback s dg = some r) :
    ∃ K save, strtok (rx_text dg) = some (K, save) ∧
      (K.head? ≠ none ∧ K.head? ≠ some NUL) ∧ r = Server.rx_body s dg K save := by
  unfold Server.udp_rx_callback at h
  split at h
  · simp at h
  · rename_i K save hk
    refine ⟨K, save, hk, token_head _ _ _ hk, ?_⟩
    simpa using h.symm

theorem server_body_exit (s : Server.State) (dg : Datagram) (K save : List Char) :
    (Server.rx_body s dg K save).exit = (verify s.tab dg.sender_addr dg.sender_port K).2 := by
  unfold Server.rx_body
  simp only
  split <;> rfl

theorem server_body_returns (s : Server.State) (dg : Datagram) (K save : List Char)
    (h : (verify s.tab dg.sender_addr dg.sender_port K).2.returns = true) :
    Server.rx_body s dg K save =
      { state := s, sent := [], exit := (verify s.tab dg.sender_addr dg.sender_port K).2 } := by
  unfold Server.rx_body
  simp only [h, if_true]

theorem server_body_accepts (s : Server.State) (dg : Datagram) (K save : List Char)
    (h : (verify s.tab dg.sender_addr dg.sender_port K).2.returns = false) :
    (Server.rx_body s dg K save).state.tab = (verify s.tab dg.sender_addr dg.sender_port K).1 ∧
    (Server.rx_body s dg K save).state.local_server_key = s.local_server_key ∧
    (Server.rx_body s dg K save).state.initialSetupPUF = s.initialSetupPUF ∧
    (Server.rx_body s dg K save).state.validate = false ∧
    (Server.rx_body s dg K save).state.servervalidate = false ∧
    (Server.rx_body s dg K save).sent =
      (if s.validate then Server.send_validation (Server.rx_body s dg K save).state else []) ++
        [Server.echo_reply s dg K] := by
  unfold Server.rx_body
  simp only [h]
  cases hv : s.validate <;> cases hsv : s.servervalidate <;>
    by_cases ht : strtok_next save = some VALIDATE <;>
    simp [hv, hsv, ht, Server.send_validation, Server.echo_reply]

theorem server_body_tab (s : Server.State) (dg : Datagram) (K save : List Char) :
    (Server.rx_body s dg K save).state.tab = (verify s.tab dg.sender_addr dg.sender_port K).1 ∧
    (Server.rx_body s dg K save).state.local_server_key = s.local_server_key ∧
    (Server.rx_body s dg K save).state.initialSetupPUF = s.initialSetupPUF := by
  cases h : (verify s.tab dg.sender_addr dg.sender_port K).2.returns
  · have := server_body_accepts s dg K save h
    exact ⟨this.1, this.2.1, this.2.2.1⟩
  · rw [server_body_returns s dg K save h, verify_returns_tab _ _ _ _ h]
    exact ⟨rfl, rfl, rfl⟩

theorem client_rx_some (s : Client.State) (dg : Datagram) (K save : List Char)
    (h : strtok (rx_text dg) = some (K, save)) :
    Client.udp_rx_callback s dg = some (Client.rx_body s dg K save) := by
  unfold Client.udp_rx_callback
  rw [h]

theorem client_rx_inv (s : Client.State) (dg : Datagram) (r : RxResult Client.State)
    (h : Client.udp_rx_callback s dg = some r) :
    ∃ K save, strtok (rx_text dg) = some (K, save) ∧
      (K.head? ≠ none ∧ K.head? ≠ some NUL) ∧ r = Client.rx_body s dg K save := by
  unfold Client.udp_rx_callback at h
  split at h
  · simp at h
  · rename_i K save hk
    refine ⟨K, save, hk, token_head _ _ _ hk, ?_⟩
    simpa using h.symm

theorem client_body_exit (s : Client.State) (dg : Datagram) (K save : List Char) :
    (Client.rx_body s dg K save).exit = (verify s.tab dg.sender_addr dg.sender_port K).2 := by
  unfold Client.rx_body
  by_cases ht : strtok_next save = some VALIDATE <;> simp only [ht, if_true, if_false] <;>
    split <;> rfl

theorem client_body_tab (s : Client.State) (dg : Datagram) (K save : List Char) :
    (Client.rx_body s dg K save).state.tab = (verify s.tab dg.sender_addr dg.sender_port K).1 ∧
    (Client.rx_body s dg K save).state.local_client_key = s.local_client_key ∧
    (Client.rx_body s dg K save).sent = [] := by
  unfold Client.rx_body
  cases h : (verify s.tab dg.sender_addr dg.sender_port K).2.returns
  · cases hv : s.validate <;> by_cases ht : strtok_next save = some VALIDATE <;>
      simp [hv, ht, h]
  · have e := verify_returns_tab _ _ _ _ h
    cases hv : s.validate <;> by_cases ht : strtok_next save = some VALIDATE <;>
      simp [hv, ht, h, e]

/-! ## Reachable states -/

theorem keygen_length (rand : Nat → Nat) : (keygen rand).length = 10 := by
  simp [keygen]

theorem server_step_inv (s s1 : Server.State) (e : Server.Event) (out : List Sent)
    (he : Server.step s e = some (s1, out))
    (ih : s.tab.WF ∧ s.local_server_key.length = 10) :
    s1.tab.WF ∧ s1.local_server_key.length = 10 := by
  cases e with
  | timer =>
    simp only [Server.step, Server.timer_expired, Option.some.injEq, Prod.mk.injEq] at he
    rw [← he.1]
    exact ih
  | rx dg =>
    simp only [Server.step, Option.map_eq_some'] at he
    obtain ⟨r, hr, e2⟩ := he
    obtain ⟨K, save, _, hK, rfl⟩ := server_rx_inv _ _ _ hr
    simp only [Prod.mk.injEq] at e2
    rw [← e2.1]
    have hb := server_body_tab s dg K save
    rw [hb.1, hb.2.1]
    exact ⟨wf_verify _ _ _ _ ih.1 hK, ih.2⟩

theorem server_reachable_inv (s : Server.State) (h : Server.Reachable s) :
    s.tab.WF ∧ s.local_server_key.length = 10 := by
  induction h with
  | start rand =>
    simp only [Server.process_begin, Server.State.init, if_true]
    exact ⟨wf_init, keygen_length rand⟩
  | step _ e he ih => exact server_step_inv _ _ e _ he ih

theorem client_timer_tab (s : Client.State) (route : Option Nat) :
    (Client.timer_expired s route).1.tab = s.tab := by
  unfold Client.timer_expired
  cases route with
  | some d => rfl
  | none => simp only; split <;> rfl

theorem client_step_inv (s s1 : Client.State) (e : Client.Event) (out : List Sent)
    (he : Client.step s e = some (s1, out)) (ih : s.tab.WF) : s1.tab.WF := by
  cases e with
  | timer route =>
    simp only [Client.step, Option.some.injEq] at he
    have := client_timer_tab s route
    rw [he] at this
    simp only at this
    rw [this]
    exact ih
  | rx dg =>
    simp only [Client.step, Option.map_eq_some'] at he
    obtain ⟨r, hr, e2⟩ := he
    obtain ⟨K, save, _, hK, rfl⟩ := client_rx_inv _ _ _ hr
    simp only [Prod.mk.injEq] at e2
    rw [← e2.1]
    have hb := client_body_tab s dg K save
    rw [hb.1]
    exact wf_verify _ _ _ _ ih hK

theorem client_reachable_inv (s : Client.State) (h : Client.Reachable s) : s.tab.WF := by
  induction h with
  | start rand =>
    simp only [Client.process_begin, Client.State.init, if_true]
    exact wf_init
  | step _ e he ih => exact client_step_inv _ _ e _ he ih


/-! ## Facts on the bytes of the keys -/

theorem strcmp_eq_iff (mem : Nat → Char) (s : List Char) :
    ∀ off, strcmp_eq mem off s = true ↔
      (∀ k, k < s.length → mem (off + k) = s.getD k NUL) ∧ mem (off + s.length) = NUL := by
  induction s with
  | nil =>
    intro off
    simp [strcmp_eq]
  | cons c cs ih =>
    intro off
    simp only [strcmp_eq, Bool.and_eq_true, beq_iff_eq, ih (off + 1), List.length_cons]
    constructor
    · rintro ⟨h0, h1, h2⟩
      refine ⟨?_, ?_⟩
      · intro k hk
        cases k with
        | zero => simpa using h0
        | succ k =>
          have := h1 k (by omega)
          rw [show off + (k + 1) = off + 1 + k by omega]
          simpa using this
      · rw [show off + (cs.length + 1) = off + 1 + cs.length by omega]
        exact h2
    · rintro ⟨h1, h2⟩
      refine ⟨?_, ?_, ?_⟩
      · simpa using h1 0 (by omega)
      · intro k hk
        have := h1 (k + 1) (by omega)
        rw [show off + 1 + k = off + (k + 1) by omega]
        simpa using this
      · rw [show off + 1 + cs.length = off + (cs.length + 1) by omega]
        exact h2

theorem strcmp_eq_congr (m1 m2 : Nat → Char) (off : Nat) (s : List Char)
    (h : ∀ x, off ≤ x → x ≤ off + s.length → m1 x = m2 x) :
    strcmp_eq m1 off s = strcmp_eq m2 off s := by
  have e : (strcmp_eq m1 off s = true) ↔ (strcmp_eq m2 off s = true) := by
    rw [strcmp_eq_iff, strcmp_eq_iff]
    constructor
    · rintro ⟨h1, h2⟩
      refine ⟨fun k hk => ?_, ?_⟩
      · rw [← h _ (by omega) (by omega)]; exact h1 k hk
      · rw [← h _ (by omega) (by omega)]; exact h2
    · rintro ⟨h1, h2⟩
      refine ⟨fun k hk => ?_, ?_⟩
      · rw [h _ (by omega) (by omega)]; exact h1 k hk
      · rw [h _ (by omega) (by omega)]; exact h2
  cases h1 : strcmp_eq m1 off s <;> cases h2 : strcmp_eq m2 off s <;> simp_all

theorem strcmp_eq_strcpy (mem : Nat → Char) (off : Nat) (s : List Char) :
    strcmp_eq (strcpy mem off s) off s = true := by
  rw [strcmp_eq_iff]
  refine ⟨fun k hk => ?_, ?_⟩
  · unfold strcpy
    rw [if_pos ⟨by omega, by omega⟩]
    congr 1
    omega
  · unfold strcpy
    rw [if_pos ⟨by omega, by omega⟩]
    rw [show off + s.length - off = s.length by omega]
    simp [List.getD_eq_default]

theorem store_key_is (t : Tables) (i a p : Nat) (K : List Char) :
    (t.store i a p K).key_is i K :=
  strcmp_eq_strcpy t.remotekeys (KEY_SIZE * i) K

theorem store_key_is_below (t : Tables) (i a p : Nat) (K K1 : List Char) (m : Nat)
    (hm : m < i) (hlen : K1.length < KEY_SIZE) :
    (t.store i a p K).key_is m K1 ↔ t.key_is m K1 := by
  unfold Tables.key_is
  rw [strcmp_eq_congr (t.store i a p K).remotekeys t.remotekeys (KEY_SIZE * m) K1]
  intro x _ hx
  apply store_keys_below
  have : KEY_SIZE * (m + 1) ≤ KEY_SIZE * i := Nat.mul_le_mul_left _ hm
  rw [Nat.mul_succ] at this
  omega

/-! ## Facts on the text of a datagram -/

theorem take_all_append (A B : List Char) (m : Nat) (h : A.length ≤ m) :
    (A ++ B).take m = A ++ B.take (m - A.length) := by
  rw [List.take_append_eq_append_take, List.take_of_length_le h]

theorem cstr_key_space (K rest : List Char) (hc : ∀ c ∈ K, c ≠ ' ' ∧ c ≠ NUL) :
    cstr (K ++ ' ' :: rest) = K ++ ' ' :: cstr rest := by
  induction K with
  | nil =>
    have : (' ' != NUL) = true := by decide
    simp [cstr, List.takeWhile_cons, this]
  | cons c K ih =>
    have h1 : (c != NUL) = true := by
      simp only [bne_iff_ne, ne_eq]
      exact (hc c (List.mem_cons_self c K)).2
    have ih2 := ih (fun d hd => hc d (List.mem_cons_of_mem c hd))
    unfold cstr at ih2 ⊢
    simp only [List.cons_append, List.takeWhile_cons, h1, if_true]
    rw [ih2]

theorem cstr_key_nul (K rest : List Char) (hc : ∀ c ∈ K, c ≠ ' ' ∧ c ≠ NUL) :
    cstr (K ++ NUL :: rest) = K := by
  induction K with
  | nil =>
    have : (NUL != NUL) = false := by decide
    simp [cstr, List.takeWhile_cons, this]
  | cons c K ih =>
    have h1 : (c != NUL) = true := by
      simp only [bne_iff_ne, ne_eq]
      exact (hc c (List.mem_cons_self c K)).2
    have ih2 := ih (fun d hd => hc d (List.mem_cons_of_mem c hd))
    unfold cstr at ih2 ⊢
    simp only [List.cons_append, List.takeWhile_cons, h1, if_true]
    rw [ih2]

theorem takeWhile_key (K x : List Char) (hc : ∀ c ∈ K, c ≠ ' ' ∧ c ≠ NUL) :
    (K ++ ' ' :: x).takeWhile (fun d => d != ' ') = K ∧
    (K ++ ' ' :: x).dropWhile (fun d => d != ' ') = ' ' :: x := by
  induction K with
  | nil => simp [List.takeWhile_cons, List.dropWhile_cons]
  | cons c K ih =>
    have h1 : (c != ' ') = true := by
      simp only [bne_iff_ne, ne_eq]
      exact (hc c (List.mem_cons_self c K)).1
    have ih2 := ih (fun d hd => hc d (List.mem_cons_of_mem c hd))
    simp only [List.cons_append, List.takeWhile_cons, List.dropWhile_cons, h1, if_true]
    exact ⟨by rw [ih2.1], ih2.2⟩

theorem takeWhile_key_end (K : List Char) (hc : ∀ c ∈ K, c ≠ ' ' ∧ c ≠ NUL) :
    K.takeWhile (fun d => d != ' ') = K ∧ K.dropWhile (fun d => d != ' ') = [] := by
  induction K with
  | nil => simp
  | cons c K ih =>
    have h1 : (c != ' ') = true := by
      simp only [bne_iff_ne, ne_eq]
      exact (hc c (List.mem_cons_self c K)).1
    have ih2 := ih (fun d hd => hc d (List.mem_cons_of_mem c hd))
    simp only [List.takeWhile_cons, List.dropWhile_cons, h1, if_true]
    exact ⟨by rw [ih2.1], ih2.2⟩

theorem strtok_key_space (K x : List Char) (hK : K ≠ [])
    (hc : ∀ c ∈ K, c ≠ ' ' ∧ c ≠ NUL) : strtok (K ++ ' ' :: x) = some (K, x) := by
  obtain ⟨h1, h2⟩ := takeWhile_key K x hc
  cases K with
  | nil => exact absurd rfl hK
  | cons c K =>
    have hc1 : (c == ' ') = false := by
      simp only [beq_eq_false_iff_ne, ne_eq]
      exact (hc c (List.mem_cons_self c K)).1
    have hd : (c :: K ++ ' ' :: x).dropWhile (fun d => d == ' ') = c :: (K ++ ' ' :: x) := by
      simp only [List.cons_append, List.dropWhile_cons, hc1]
      rfl
    simp only [List.cons_append] at h1 h2
    unfold strtok
    rw [hd]
    simp only [h1, h2]
    rfl

theorem strtok_key_end (K : List Char) (hK : K ≠ [])
    (hc : ∀ c ∈ K, c ≠ ' ' ∧ c ≠ NUL) : strtok K = some (K, []) := by
  obtain ⟨h1, h2⟩ := takeWhile_key_end K hc
  cases K with
  | nil => exact absurd rfl hK
  | cons c K =>
    have hc1 : (c == ' ') = false := by
      simp only [beq_eq_false_iff_ne, ne_eq]
      exact (hc c (List.mem_cons_self c K)).1
    have hd : (c :: K).dropWhile (fun d => d == ' ') = c :: K := by
      simp only [List.dropWhile_cons, hc1]
      rfl
    unfold strtok
    rw [hd]
    simp only [h1, h2]
    rfl

/-- The text of a datagram that starts with a key and a space starts with them, whatever the
array held before. -/
theorem rx_text_key_space (dg : Datagram) (K rest : List Char)
    (hd : dg.data = K ++ ' ' :: rest) (hlen : K.length < TERMINATOR_INDEX)
    (hc : ∀ c ∈ K, c ≠ ' ' ∧ c ≠ NUL) :
    ∃ x, rx_text dg = K ++ ' ' :: x := by
  unfold rx_text data_copy memcpy
  have e : dg.data ++ dg.stale_copy.drop dg.data.length =
      (K ++ [' ']) ++ (rest ++ dg.stale_copy.drop dg.data.length) := by
    rw [hd]; simp
  rw [e, take_all_append _ _ _ (by simp; omega)]
  have e2 : K ++ [' '] ++ List.take (TERMINATOR_INDEX - (K ++ [' ']).length)
      (rest ++ dg.stale_copy.drop dg.data.length) =
      K ++ ' ' :: List.take (TERMINATOR_INDEX - (K ++ [' ']).length)
        (rest ++ dg.stale_copy.drop dg.data.length) := by simp
  rw [e2, cstr_key_space K _ hc]
  exact ⟨_, rfl⟩

theorem rx_token_key (dg : Datagram) (K rest : List Char)
    (hd : dg.data = K ++ ' ' :: rest) (hK : K ≠ []) (hlen : K.length < TERMINATOR_INDEX)
    (hc : ∀ c ∈ K, c ≠ ' ' ∧ c ≠ NUL) :
    ∃ save, strtok (rx_text dg) = some (K, save) := by
  obtain ⟨x, hx⟩ := rx_text_key_space dg K rest hd hlen hc
  exact ⟨x, by rw [hx]; exact strtok_key_space K x hK hc⟩

/-! ## Scenario states are reachable -/

theorem exServer0_reachable : Server.Reachable exServer0 :=
  Server.Reachable.start exRand

theorem exServer1_reachable : Server.Reachable exServer1 :=
  @Server.Reachable.step exServer0 exServer0_reachable (Server.Event.rx exHello0) exServer1
    (Server.rx_body exServer0 exHello0 exKeyA "hello 0".data).sent rfl

theorem exServer2_reachable : Server.Reachable exServer2 :=
  @Server.Reachable.step exServer1 exServer1_reachable (Server.Event.rx exHelloB) exServer2
    (Server.rx_body exServer1 exHelloB "qrs456tuv7".data "hello 0".data).sent rfl

theorem exClient0_reachable : Client.Reachable exClient0 :=
  Client.Reachable.start exRand

theorem exClient1_reachable : Client.Reachable exClient1 :=
  @Client.Reachable.step exClient0 exClient0_reachable (Client.Event.rx exHello0) exClient1
    (Client.rx_body exClient0 exHello0 exKeyA "hello 0".data).sent rfl


theorem server_rx_reachable (s : Server.State) (hs : Server.Reachable s) (dg : Datagram)
    (r : RxResult Server.State) (hr : Server.udp_rx_callback s dg = some r) :
    Server.Reachable r.state :=
  @Server.Reachable.step s hs (Server.Event.rx dg) r.state r.sent (by
    simp only [Server.step, hr, Option.map_some'])

theorem client_rx_reachable (s : Client.State) (hs : Client.Reachable s) (dg : Datagram)
    (r : RxResult Client.State) (hr : Client.udp_rx_callback s dg = some r) :
    Client.Reachable r.state :=
  @Client.Reachable.step s hs (Client.Event.rx dg) r.state r.sent (by
    simp only [Client.step, hr, Option.map_some'])

theorem exServerK20_reachable : Server.Reachable exServerK20 :=
  server_rx_reachable exServer0 exServer0_reachable exLongKey0 _ rfl

theorem exServerK20B_reachable : Server.Reachable exServerK20B :=
  server_rx_reachable exServerK20 exServerK20_reachable exHelloB _ rfl

theorem exClientK20_reachable : Client.Reachable exClientK20 :=
  client_rx_reachable exClient0 exClient0_reachable exLongKey0 _ rfl

theorem exClientK20B_reachable : Client.Reachable exClientK20B :=
  client_rx_reachable exClientK20 exClientK20_reachable exHelloB _ rfl

theorem exServerK25_reachable : Server.Reachable exServerK25 :=
  server_rx_reachable exServer0 exServer0_reachable exSpill _ rfl

theorem exClientK25_reachable : Client.Reachable exClientK25 :=
  client_rx_reachable exClient0 exClient0_reachable exSpill _ rfl

/-! ## C1: trust on first use -/

/-- C1. The claim fails on the code for a key of 20 characters, in the server and in the
client. The peer at address 1 and port 8765 is registered with the key
`abcdefghijklmnopqrst` in cell 0, and its next message with that key is verified. Then a
second peer is registered in cell 1: `strcpy` puts its key where the terminator of the first
key was. In the state reached, the message `abcdefghijklmnopqrst hello 1` of the first peer is
not verified, and nothing is sent. -/
theorem long_key_not_verified :
    exKey20.length = 20 ∧
    strtok (rx_text exLongKey1) = some (exKey20, "hello 1".data) ∧
    (Server.Reachable exServerK20B ∧
      (Server.udp_rx_callback exServer0 exLongKey0).map (fun r => r.exit) =
        some (LoopExit.added 0) ∧
      (Server.udp_rx_callback exServerK20 exLongKey1).map (fun r => r.exit) =
        some (LoopExit.verified 0) ∧
      (Server.udp_rx_callback exServerK20 exHelloB).map (fun r => r.exit) =
        some (LoopExit.added 1) ∧
      (Server.udp_rx_callback exServerK20B exLongKey1).map (fun r => (r.exit, r.sent)) =
        some (LoopExit.notVerified 0, [])) ∧
    (Client.Reachable exClientK20B ∧
      (Client.udp_rx_callback exClient0 exLongKey0).map (fun r => r.exit) =
        some (LoopExit.added 0) ∧
      (Client.udp_rx_callback exClientK20 exLongKey1).map (fun r => r.exit) =
        some (LoopExit.verified 0) ∧
      (Client.udp_rx_callback exClientK20 exHelloB).map (fun r => r.exit) =
        some (LoopExit.added 1) ∧
      (Client.udp_rx_callback exClientK20B exLongKey1).map (fun r => (r.exit, r.sent)) =
        some (LoopExit.notVerified 0, [])) :=
  ⟨by decide, by decide,
   ⟨exServerK20B_reachable, by decide, by decide, by decide, by decide⟩,
   ⟨exClientK20B_reachable, by decide, by decide, by decide, by decide⟩⟩

/-! ## C2: a mismatch in the server -/

/-- C2. The claim fails on the code when the key of the datagram is not followed by a space
or a terminator. Peer A is bound to `abc123xyz0` in cell 0; scenario C, `zzz999yyy1 hello 2`
from its endpoint, is dropped. But when the arrays of the callback hold what the run on
`abc123xyz0 hello 0` left, the 3 bytes `abc` from the endpoint of A, which carry another key,
are read as `abc123xyz0`: the message is verified, not dropped, and the server answers
`abcdefghij hello 0`. -/
theorem bare_key_verified :
    Server.Reachable exServer1 ∧
    exServer1.tab.isSender 0 exBare.sender_addr exBare.sender_port ∧
    exServer1.tab.key_is 0 exKeyA ∧
    Server.udp_rx_callback exServer1 exAttack =
      some { state := exServer1, sent := [], exit := LoopExit.notVerified 0 } ∧
    exBare.data = ['a', 'b', 'c'] ∧ exBare.data ≠ exKeyA ∧
    rx_text exBare = exKeyA ∧
    (Server.udp_rx_callback exServer1 exBare).map (fun r => (r.exit, r.sent)) =
      some (LoopExit.verified 0, [{ text := "abcdefghij hello 0".data, dest := 1 }]) :=
  ⟨exServer1_reachable, by decide, by decide, rfl, rfl, by decide, by decide, by decide⟩

/-! ## C3: registration -/

theorem verify_new (t : Tables) (a p : Nat) (k : List Char)
    (hz : ¬ (p = 0 ∧ a = uip_all_zeroes_addr))
    (hf : ∃ f, f < MAX_NODES ∧ t.isEmpty f)
    (hn : ∀ m, ¬ t.isEmpty m → ¬ t.isSender m a p) :
    ∃ i, i < MAX_NODES ∧ t.isEmpty i ∧ verify t a p k = (t.store i a p k, LoopExit.added i) := by
  have hex : ∃ n, t.isEmpty n := by
    obtain ⟨f, _, h⟩ := hf
    exact ⟨f, h⟩
  have hi : Nat.find hex < MAX_NODES := by
    obtain ⟨f, h1, h2⟩ := hf
    exact lt_of_le_of_lt (Nat.find_min' hex h2) h1
  have he : t.isEmpty (Nat.find hex) := Nat.find_spec hex
  have hp : t.Passed a p 0 (Nat.find hex) := by
    intro m _ hm
    have : ¬ t.isEmpty m := Nat.find_min hex hm
    exact ⟨hn m this, this⟩
  have hs : ¬ t.isSender (Nat.find hex) a p := by
    intro h
    apply hz
    unfold Tables.isSender at h
    unfold Tables.isEmpty at he
    exact ⟨h.1 ▸ he.1, h.2 ▸ he.2⟩
  exact ⟨Nat.find hex, hi, he, verify_empty t a p k _ hi hp hs he⟩

/-- C3, as stated, fails at the all-zero endpoint: the started server and the started client
have every cell free and no entry for the endpoint with address 0 and port 0, yet a datagram
from it with key `abc` is not registered; the callback takes it for a known sender with
another key and returns, the arrays staying without any key byte. -/
theorem registration_zero_endpoint_counterexample :
    (Server.Reachable exServer0 ∧ exServer0.tab.isEmpty 0 ∧
      (∀ m, ¬ exServer0.tab.isEmpty m →
        ¬ exServer0.tab.isSender m exZero.sender_addr exZero.sender_port) ∧
      strtok (rx_text exZero) = some ("abc".data, "hello 0".data) ∧
      Server.udp_rx_callback exServer0 exZero =
        some { state := exServer0, sent := [], exit := LoopExit.notVerified 0 } ∧
      ∀ x, exServer0.tab.remotekeys x = NUL) ∧
    (Client.Reachable exClient0 ∧ exClient0.tab.isEmpty 0 ∧
      (∀ m, ¬ exClient0.tab.isEmpty m →
        ¬ exClient0.tab.isSender m exZero.sender_addr exZero.sender_port) ∧
      Client.udp_rx_callback exClient0 exZero =
        some { state := exClient0, sent := [], exit := LoopExit.notVerified 0 } ∧
      ∀ x, exClient0.tab.remotekeys x = NUL) :=
  ⟨⟨exServer0_reachable, ⟨rfl, rfl⟩, fun _ h => absurd ⟨rfl, rfl⟩ h, rfl, rfl, fun _ => rfl⟩,
   ⟨exClient0_reachable, ⟨rfl, rfl⟩, fun _ h => absurd ⟨rfl, rfl⟩ h, rfl, fun _ => rfl⟩⟩

theorem store_registers (t : Tables) (hw : t.WF) (a p : Nat) (K : List Char) (i : Nat)
    (he : t.isEmpty i) :
    (t.store i a p K).sender_addrs i = a ∧ (t.store i a p K).sender_ports i = p ∧
    (t.store i a p K).key_is i K ∧
    (∀ m, m ≠ i → (t.store i a p K).sender_addrs m = t.sender_addrs m ∧
      (t.store i a p K).sender_ports m = t.sender_ports m) ∧
    (∀ m K1, ¬ t.isEmpty m → K1.length < KEY_SIZE →
      ((t.store i a p K).key_is m K1 ↔ t.key_is m K1)) := by
  refine ⟨?_, ?_, store_key_is t i a p K, ?_, ?_⟩
  · simp [store_addrs]
  · simp [store_ports]
  · intro m hm
    simp [store_addrs, store_ports, hm]
  · intro m K1 hocc hlen
    have hlt : m < i := by
      rcases Nat.lt_trichotomy m i with h | h | h
      · exact h
      · exact absurd (h ▸ he) hocc
      · exact absurd he (hw.front m i h hocc)
    exact store_key_is_below t i a p K K1 m hlt hlen

/-- C3, amended. In the server and in the client, for every reachable state with a free cell
and every datagram of at most 120 bytes that starts with a key of at most 19 characters
followed by a space, comes from an endpoint other than the all-zero address with port 0, and
whose endpoint is in no occupied cell: the callback registers it in one cell `i` that was free, which then holds
the address, the port and the key of the datagram; every other cell keeps its address and
its port, and every occupied cell keeps its key as far as keys of at most 19 characters go
(it holds such a key after the run exactly when it held it before). -/
theorem registration_of_new_endpoint :
    (∀ (s : Server.State), Server.Reachable s →
      ∀ (dg : Datagram) (K rest : List Char),
      dg.data = K ++ ' ' :: rest → dg.data.length < COPY_SIZE →
      K ≠ [] → K.length < KEY_SIZE →
      (∀ c ∈ K, c ≠ ' ' ∧ c ≠ NUL) →
      ¬ (dg.sender_port = 0 ∧ dg.sender_addr = uip_all_zeroes_addr) →
      (∃ f, f < MAX_NODES ∧ s.tab.isEmpty f) →
      (∀ m, ¬ s.tab.isEmpty m → ¬ s.tab.isSender m dg.sender_addr dg.sender_port) →
      ∃ r i, Server.udp_rx_callback s dg = some r ∧ r.exit = LoopExit.added i ∧
        i < MAX_NODES ∧ s.tab.isEmpty i ∧
        r.state.tab.sender_addrs i = dg.sender_addr ∧
        r.state.tab.sender_ports i = dg.sender_port ∧
        r.state.tab.key_is i K ∧
        (∀ m, m ≠ i → r.state.tab.sender_addrs m = s.tab.sender_addrs m ∧
          r.state.tab.sender_ports m = s.tab.sender_ports m) ∧
        (∀ m K1, ¬ s.tab.isEmpty m → K1.length < KEY_SIZE →
          (r.state.tab.key_is m K1 ↔ s.tab.key_is m K1))) ∧
    (∀ (s : Client.State), Client.Reachable s →
      ∀ (dg : Datagram) (K rest : List Char),
      dg.data = K ++ ' ' :: rest → dg.data.length < COPY_SIZE →
      K ≠ [] → K.length < KEY_SIZE →
      (∀ c ∈ K, c ≠ ' ' ∧ c ≠ NUL) →
      ¬ (dg.sender_port = 0 ∧ dg.sender_addr = uip_all_zeroes_addr) →
      (∃ f, f < MAX_NODES ∧ s.tab.isEmpty f) →
      (∀ m, ¬ s.tab.isEmpty m → ¬ s.tab.isSender m dg.sender_addr dg.sender_port) →
      ∃ r i, Client.udp_rx_callback s dg = some r ∧ r.exit = LoopExit.added i ∧
        i < MAX_NODES ∧ s.tab.isEmpty i ∧
        r.state.tab.sender_addrs i = dg.sender_addr ∧
        r.state.tab.sender_ports i = dg.sender_port ∧
        r.state.tab.key_is i K ∧
        (∀ m, m ≠ i → r.state.tab.sender_addrs m = s.tab.sender_addrs m ∧
          r.state.tab.sender_ports m = s.tab.sender_ports m) ∧
        (∀ m K1, ¬ s.tab.isEmpty m → K1.length < KEY_SIZE →
          (r.state.tab.key_is m K1 ↔ s.tab.key_is m K1))) := by
  constructor
  · intro s hs dg K rest hd _ hK hlen hc hz hf hn
    have hw := (server_reachable_inv s hs).1
    obtain ⟨save, htok⟩ := rx_token_key dg K rest hd hK
      (lt_trans hlen (by decide)) hc
    obtain ⟨i, hi, he, hv⟩ := verify_new s.tab _ _ K hz hf hn
    have hst := store_registers s.tab hw dg.sender_addr dg.sender_port K i he
    refine ⟨_, i, server_rx_some s dg K save htok, ?_, hi, he, ?_⟩
    · rw [server_body_exit, hv]
    · rw [(server_body_tab s dg K save).1, hv]
      exact hst
  · intro s hs dg K rest hd _ hK hlen hc hz hf hn
    have hw := client_reachable_inv s hs
    obtain ⟨save, htok⟩ := rx_token_key dg K rest hd hK
      (lt_trans hlen (by decide)) hc
    obtain ⟨i, hi, he, hv⟩ := verify_new s.tab _ _ K hz hf hn
    have hst := store_registers s.tab hw dg.sender_addr dg.sender_port K i he
    refine ⟨_, i, client_rx_some s dg K save htok, ?_, hi, he, ?_⟩
    · rw [client_body_exit, hv]
    · rw [(client_body_tab s dg K save).1, hv]
      exact hst

/-- C3, amended, at the client with peer A registered, when the second peer sends
`qrs456tuv7 hello 0`: it is registered in one cell, and cell 0 still holds the key of A. -/
theorem registration_of_new_endpoint_witness :
    ∃ r i, Client.udp_rx_callback exClient1 exHelloB = some r ∧ r.exit = LoopExit.added i ∧
      i < MAX_NODES ∧ exClient1.tab.isEmpty i ∧
      r.state.tab.sender_addrs i = exHelloB.sender_addr ∧
      r.state.tab.sender_ports i = exHelloB.sender_port ∧
      r.state.tab.key_is i "qrs456tuv7".data ∧
      (∀ m, m ≠ i → r.state.tab.sender_addrs m = exClient1.tab.sender_addrs m ∧
        r.state.tab.sender_ports m = exClient1.tab.sender_ports m) ∧
      (∀ m K1, ¬ exClient1.tab.isEmpty m → K1.length < KEY_SIZE →
        (r.state.tab.key_is m K1 ↔ exClient1.tab.key_is m K1)) :=
  registration_of_new_endpoint.2 exClient1 exClient1_reachable exHelloB "qrs456tuv7".data
    "hello 0".data rfl (by decide) (by decide) (by decide) (by decide) (by decide)
    ⟨1, by decide, by decide⟩
    (fun m hm hs => by
      have hw := client_reachable_inv exClient1 exClient1_reachable
      have h0 : ¬ exClient1.tab.isEmpty 0 := by decide
      have e := hw.unique 0 m h0
      have hs2 : exClient1.tab.sender_addrs m = 2 := hs.2
      have hm0 : m ≠ 0 := by
        intro h
        rw [h] at hs2
        exact absurd hs2 (by decide)
      have h1 : exClient1.tab.isEmpty 1 := by decide
      rcases Nat.lt_or_ge m 1 with h | h
      · omega
      · rcases Nat.eq_or_lt_of_le h with h2 | h2
        · exact hm (h2 ▸ h1)
        · exact hw.front m 1 h2 hm h1)
/-! ## C4: one entry per endpoint -/

/-- C4 (invariant I1). In every state a server or a client reaches from its start by any
events, two occupied cells of the arrays never hold the same endpoint: occupied cells `i` and
`j` with equal port and equal address are one cell. -/
theorem one_entry_per_endpoint :
    (∀ (s : Server.State), Server.Reachable s →
      ∀ (i j : Nat), i < MAX_NODES → j < MAX_NODES → ¬ s.tab.isEmpty i → ¬ s.tab.isEmpty j →
        s.tab.sender_ports i = s.tab.sender_ports j →
        s.tab.sender_addrs i = s.tab.sender_addrs j → i = j) ∧
    (∀ (s : Client.State), Client.Reachable s →
      ∀ (i j : Nat), i < MAX_NODES → j < MAX_NODES → ¬ s.tab.isEmpty i → ¬ s.tab.isEmpty j →
        s.tab.sender_ports i = s.tab.sender_ports j →
        s.tab.sender_addrs i = s.tab.sender_addrs j → i = j) :=
  ⟨fun s hs i j _ _ hi _ hp ha => (server_reachable_inv s hs).1.unique i j hi hp ha,
   fun s hs i j _ _ hi _ hp ha => (client_reachable_inv s hs).unique i j hi hp ha⟩

/-- C4, at the server after two peers registered: the two occupied cells 0 and 1 hold
different addresses, and the invariant applies to cell 1 taken twice. -/
theorem one_entry_per_endpoint_witness :
    exServer2.tab.sender_addrs 0 ≠ exServer2.tab.sender_addrs 1 ∧ (1 : Nat) = 1 :=
  ⟨by decide,
   one_entry_per_endpoint.1 exServer2 exServer2_reachable 1 1 (by decide) (by decide)
     (by decide) (by decide) rfl rfl⟩

/-! ## C5: no update, no delete -/

/-- C5. The claim fails on the code for a key of 20 characters, in the server and in the
client. In a reachable state cell 0 is occupied and holds the key `abcdefghijklmnopqrst`,
whose terminator is the first byte of cell 1. The first message of a second peer is
registered in cell 1: cell 0 keeps its address and its port, and the key read from it is
now `abcdefghijklmnopqrstqrs456tuv7`. -/
theorem occupied_key_changed :
    (Server.Reachable exServerK20 ∧ ¬ exServerK20.tab.isEmpty 0 ∧
      exServerK20.tab.key_is 0 exKey20 ∧
      (Server.udp_rx_callback exServerK20 exHelloB).map (fun r =>
          (r.exit, r.state.tab.sender_addrs 0, r.state.tab.sender_ports 0,
           decide (r.state.tab.key_is 0 exKey20),
           decide (r.state.tab.key_is 0 (exKey20 ++ "qrs456tuv7".data)))) =
        some (LoopExit.added 1, 1, 8765, false, true)) ∧
    (Client.Reachable exClientK20 ∧ ¬ exClientK20.tab.isEmpty 0 ∧
      exClientK20.tab.key_is 0 exKey20 ∧
      (Client.udp_rx_callback exClientK20 exHelloB).map (fun r =>
          (r.exit, r.state.tab.sender_addrs 0, r.state.tab.sender_ports 0,
           decide (r.state.tab.key_is 0 exKey20),
           decide (r.state.tab.key_is 0 (exKey20 ++ "qrs456tuv7".data)))) =
        some (LoopExit.added 1, 1, 8765, false, true)) :=
  ⟨⟨exServerK20_reachable, by decide, by decide, by decide⟩,
   ⟨exClientK20_reachable, by decide, by decide, by decide⟩⟩

/-! ## C6: the capacity bound -/

theorem occupied_ncard (t : Tables) (hw : t.WF) :
    Set.ncard {i : Nat | ¬ t.isEmpty i} ≤ MAX_NODES := by
  have hsub : {i : Nat | ¬ t.isEmpty i} ⊆ ((Finset.range MAX_NODES : Finset Nat) : Set Nat) := by
    intro i hi
    simp only [Finset.coe_range, Set.mem_Iio]
    by_contra h
    exact hi (hw.outside i (by omega))
  have h := Set.ncard_le_ncard hsub (Finset.finite_toSet _)
  rw [Set.ncard_coe_Finset, Finset.card_range] at h
  exact h

/-- C6. Capacity bound, in the server and in the client. In every reachable state the
occupied cells are at most ten. And in any state whose ten cells are all occupied, a datagram
that carries a key and whose endpoint is in none of them leaves the arrays as they were (no
entry made, none changed), and the loop ends by exhaustion, not by the return of a key
mismatch. -/
theorem capacity_bound :
    (∀ (s : Server.State), Server.Reachable s →
      Set.ncard {i : Nat | ¬ s.tab.isEmpty i} ≤ 10) ∧
    (∀ (s : Client.State), Client.Reachable s →
      Set.ncard {i : Nat | ¬ s.tab.isEmpty i} ≤ 10) ∧
    (∀ (s : Server.State) (dg : Datagram) (K save : List Char),
      strtok (rx_text dg) = some (K, save) →
      (∀ i, i < MAX_NODES → ¬ s.tab.isEmpty i) →
      (∀ i, i < MAX_NODES → ¬ s.tab.isSender i dg.sender_addr dg.sender_port) →
      ∃ r, Server.udp_rx_callback s dg = some r ∧ r.state.tab = s.tab ∧
        r.exit = LoopExit.exhausted) ∧
    (∀ (s : Client.State) (dg : Datagram) (K save : List Char),
      strtok (rx_text dg) = some (K, save) →
      (∀ i, i < MAX_NODES → ¬ s.tab.isEmpty i) →
      (∀ i, i < MAX_NODES → ¬ s.tab.isSender i dg.sender_addr dg.sender_port) →
      ∃ r, Client.udp_rx_callback s dg = some r ∧ r.state.tab = s.tab ∧
        r.exit = LoopExit.exhausted) := by
  refine ⟨fun s hs => occupied_ncard _ (server_reachable_inv s hs).1,
    fun s hs => occupied_ncard _ (client_reachable_inv s hs), ?_, ?_⟩
  · intro s dg K save htok hfull hnot
    have hv := verify_exhausted s.tab dg.sender_addr dg.sender_port K
      (fun m _ hm => ⟨hnot m hm, hfull m hm⟩)
    refine ⟨_, server_rx_some s dg K save htok, ?_, ?_⟩
    · rw [(server_body_tab s dg K save).1, hv]
    · rw [server_body_exit, hv]
  · intro s dg K save htok hfull hnot
    have hv := verify_exhausted s.tab dg.sender_addr dg.sender_port K
      (fun m _ hm => ⟨hnot m hm, hfull m hm⟩)
    refine ⟨_, client_rx_some s dg K save htok, ?_, ?_⟩
    · rw [(client_body_tab s dg K save).1, hv]
    · rw [client_body_exit, hv]

/-- C6, at scenario E: the server holds ten peers, at addresses 1 to 10, and a datagram comes
from address 11. -/
theorem capacity_bound_witness :
    ∃ r, Server.udp_rx_callback exServerFull exEleventh = some r ∧
      r.state.tab = exServerFull.tab ∧ r.exit = LoopExit.exhausted :=
  capacity_bound.2.2.1 exServerFull exEleventh "klm789nop1".data "hello 0".data rfl
    (by decide) (by decide)

/-! ## C7: the echo reply -/

theorem cstr_append_of_term (A B : List Char) (h : NUL ∈ A ∨ cstr B = []) :
    cstr (A ++ B) = cstr A := by
  induction A with
  | nil =>
    rcases h with h | h
    · simp at h
    · simpa [cstr] using h
  | cons a A ih =>
    by_cases ha : a = NUL
    · have : (a != NUL) = false := by simp [ha]
      simp [cstr, List.takeWhile_cons, this]
    · have h1 : (a != NUL) = true := by simpa using ha
      have h2 : NUL ∈ A ∨ cstr B = [] := by
        rcases h with h | h
        · left
          rcases List.mem_cons.1 h with h | h
          · exact absurd h.symm ha
          · exact h
        · exact Or.inr h
      have ih2 := ih h2
      unfold cstr at ih2 ⊢
      simp only [List.cons_append, List.takeWhile_cons, h1, if_true]
      rw [ih2]

theorem echo_text_key_space (s : Server.State) (dg : Datagram) (K rest : List Char)
    (hd : dg.data = K ++ ' ' :: rest)
    (hterm : NUL ∈ rest ∨ cstr (dg.stale_reply.drop dg.data.length) = []) :
    Server.echo_reply s dg K =
      { text := s.local_server_key ++ ' ' :: cstr rest, dest := dg.sender_addr } := by
  unfold Server.echo_reply new_data_copy memcpy
  have e : (dg.data ++ dg.stale_reply.drop dg.data.length).drop (K.length + 1) =
      rest ++ dg.stale_reply.drop dg.data.length := by
    have e1 : dg.data ++ dg.stale_reply.drop dg.data.length =
        (K ++ [' ']) ++ (rest ++ dg.stale_reply.drop dg.data.length) := by
      rw [hd]; simp
    rw [e1]
    have e2 : K.length + 1 = (K ++ [' ']).length := by simp
    rw [e2, List.drop_left]
  rw [e, cstr_append_of_term _ _ hterm]
  simp

/-- C7, as stated, fails for an accepted message that starts with a space: the server with
key `abcdefghij` registers the sender of ` abc hello 0` with key `abc`; the text after the key
field and its space is `hello 0`, yet the reply sent has two spaces after the server key. It
also fails when the array `new_data_copy` holds no terminator behind the bytes received:
with the 19 bytes of `abc123xyz0 hello 10` left in it, `abc123xyz0 hello 2` of peer A is
answered `abcdefghij hello 20`. -/
theorem echo_reply_leading_space_counterexample :
    strtok (rx_text exLeading) = some ("abc".data, "hello 0".data) ∧
    (Server.udp_rx_callback exServer0 exLeading).map (fun r => (r.exit, r.sent)) =
      some (LoopExit.added 0, [{ text := "abcdefghij  hello 0".data, dest := 1 }]) ∧
    "abcdefghij  hello 0".data ≠ exServer0.local_server_key ++ ' ' :: "hello 0".data ∧
    strtok (rx_text exHello2Stale) = some (exKeyA, "hello 20".data) ∧
    (Server.udp_rx_callback exServer1 exHello2Stale).map (fun r => (r.exit, r.sent)) =
      some (LoopExit.verified 0, [{ text := "abcdefghij hello 20".data, dest := 1 }]) := by
  decide

/-- C7, amended. For every state of the server and every datagram of at most 120 bytes whose
bytes are a key field `K` (not empty, at most 19 characters, without space or terminator), one
space and any bytes `rest`, when the text of `rest` ends at a terminator (one of the bytes of
`rest`, or the byte that follows the bytes received in the array `new_data_copy`) and the
reply is at most 120 characters long: the callback runs, and when the message is accepted
(the loop does not return) the last datagram it sends goes to the sender and is the key of the
server, one space, and the text of `rest`. -/
theorem echo_reply_text (s : Server.State) (dg : Datagram) (K rest : List Char) :
    dg.data = K ++ ' ' :: rest → K ≠ [] → K.length < KEY_SIZE →
    (∀ c ∈ K, c ≠ ' ' ∧ c ≠ NUL) →
    dg.data.length < COPY_SIZE →
    (NUL ∈ rest ∨ cstr (dg.stale_reply.drop dg.data.length) = []) →
    (s.local_server_key ++ ' ' :: cstr rest).length < COPY_SIZE →
    ∃ r, Server.udp_rx_callback s dg = some r ∧
      (r.exit.returns = false →
        r.sent.getLast? =
          some { text := s.local_server_key ++ ' ' :: cstr rest, dest := dg.sender_addr }) := by
  intro hd hK hlen hc _ hterm _
  obtain ⟨save, htok⟩ := rx_token_key dg K rest hd hK (lt_trans hlen (by decide)) hc
  refine ⟨_, server_rx_some s dg K save htok, ?_⟩
  intro hacc
  rw [server_body_exit] at hacc
  have h := (server_body_accepts s dg K save hacc).2.2.2.2.2
  rw [h, List.getLast?_concat, echo_text_key_space s dg K rest hd hterm]

/-- C7, at scenario A: the reply to `abc123xyz0 hello 0` is `abcdefghij hello 0`, sent to the
address of peer A. -/
theorem echo_reply_text_witness :
    ∃ r, Server.udp_rx_callback exServer0 exHello0 = some r ∧
      (r.exit.returns = false →
        r.sent.getLast? =
          some { text := exServer0.local_server_key ++ ' ' :: cstr "hello 0".data,
                 dest := exHello0.sender_addr }) :=
  echo_reply_text exServer0 exHello0 exKeyA "hello 0".data rfl (by decide) (by decide)
    (by decide) (by decide) (Or.inr rfl) (by decide)

/-! ## C8: the validate broadcast -/

theorem validate_text_eq (key : List Char) (h : key.length = 10) :
    Server.validate_text key = key ++ " validate ".data := by
  unfold Server.validate_text
  have e : key ++ [' '] ++ VALIDATE ++ [' '] = key ++ " validate ".data := by
    simp [VALIDATE]
  rw [e]
  apply List.take_of_length_le
  simp [h, STR_SIZE]

/-- C8. The claim fails on the code after a key of 25 characters. The started server, with
`validate` set by its timer, receives `ABCDEFGHIJKLMNOPQRSTUVWXY hello 0` from address 1 and
registers it in cell 0; `strcpy` leaves `UVWXY` in the bytes of cell 1, which stays empty
(port 0, address 0). The broadcast of the same run sends the challenge to the address of
cell 0 and to the address of the empty cell 1, and then the reply. -/
theorem challenge_to_empty_cell :
    Server.Reachable (Server.timer_expired exServer0) ∧
    (Server.timer_expired exServer0).validate = true ∧
    (Server.udp_rx_callback (Server.timer_expired exServer0) exSpill).map (fun r =>
        (r.exit, r.sent, decide (r.state.tab.isEmpty 1), r.state.tab.sender_addrs 1,
         r.state.validate)) =
      some (LoopExit.added 0,
        [{ text := "abcdefghij validate ".data, dest := 1 },
         { text := "abcdefghij validate ".data, dest := 0 },
         { text := "abcdefghij hello 0".data, dest := 1 }], true, 0, false) :=
  ⟨@Server.Reachable.step exServer0 exServer0_reachable Server.Event.timer
      (Server.timer_expired exServer0) [] rfl, rfl, by decide⟩

/-! ## C9: the challenge timer -/

theorem server_timers_silent (n : Nat) :
    ∀ (s : Server.State),
      (Server.run s (List.replicate n Server.Event.timer)).map Prod.snd = some [] := by
  induction n with
  | zero => intro s; rfl
  | succ n ih =>
    intro s
    have h := ih (Server.timer_expired s)
    simp only [List.replicate_succ, Server.run, Server.step]
    cases hr : Server.run (Server.timer_expired s) (List.replicate n Server.Event.timer) with
    | none => rw [hr] at h; simp at h
    | some p =>
      rw [hr] at h
      simp only [Option.map_some', Option.some.injEq] at h
      simp [h]

/-- C9, as stated, fails: the server holds two registered peers and its challenge timer
expires, once or three times in a row with no inbound message; no datagram is sent. -/
theorem timer_broadcast_counterexample :
    Server.Reachable exServer2 ∧ ¬ exServer2.tab.isEmpty 0 ∧ ¬ exServer2.tab.isEmpty 1 ∧
    (Server.step exServer2 Server.Event.timer).map Prod.snd = some [] ∧
    (Server.run exServer2
      [Server.Event.timer, Server.Event.timer, Server.Event.timer]).map Prod.snd = some [] :=
  ⟨exServer2_reachable, by decide, by decide, rfl, rfl⟩

/-- C9, amended. When the challenge timer of a running server expires, the server sends
nothing and only sets `validate` (arrays and key stay); any number of expiries with no
inbound message sends nothing. The next run of the callback whose loop does not return
sends the text `<server key> validate ` to the address of every cell that was occupied when
the timer expired. -/
theorem challenge_sent_on_next_message (s : Server.State) (hs : Server.Reachable s) :
    Server.step s Server.Event.timer = some (Server.timer_expired s, []) ∧
    (Server.timer_expired s).validate = true ∧
    (Server.timer_expired s).tab = s.tab ∧
    (Server.timer_expired s).local_server_key = s.local_server_key ∧
    (∀ n, (Server.run s (List.replicate n Server.Event.timer)).map Prod.snd = some []) ∧
    (∀ (dg : Datagram) (r : RxResult Server.State),
      Server.udp_rx_callback (Server.timer_expired s) dg = some r → r.exit.returns = false →
      ∀ i, ¬ s.tab.isEmpty i →
        ({ text := s.local_server_key ++ " validate ".data,
           dest := s.tab.sender_addrs i } : Sent) ∈ r.sent) := by
  refine ⟨rfl, rfl, rfl, rfl, fun n => server_timers_silent n s, ?_⟩
  intro dg r hr hacc i hi
  have hs1 : Server.Reachable (Server.timer_expired s) :=
    @Server.Reachable.step s hs Server.Event.timer (Server.timer_expired s) [] rfl
  have hinv := server_reachable_inv _ (server_rx_reachable _ hs1 dg r hr)
  have hw := (server_reachable_inv s hs).1
  have hk := (server_reachable_inv s hs).2
  obtain ⟨K, save, _, _, rfl⟩ := server_rx_inv _ _ _ hr
  rw [server_body_exit] at hacc
  have hb := server_body_accepts (Server.timer_expired s) dg K save hacc
  have hf := verify_frame s.tab dg.sender_addr dg.sender_port K i hi
  have htab : (Server.rx_body (Server.timer_expired s) dg K save).state.tab =
      (verify s.tab dg.sender_addr dg.sender_port K).1 := hb.1
  have hkey : (Server.rx_body (Server.timer_expired s) dg K save).state.local_server_key =
      s.local_server_key := hb.2.1
  have hlt : i < MAX_NODES := by
    by_contra h
    exact hi (hw.outside i (by omega))
  have hocc : ¬ (Server.rx_body (Server.timer_expired s) dg K save).state.tab.isEmpty i := by
    unfold Tables.isEmpty at hi ⊢
    rw [htab, hf.1, hf.2]
    exact hi
  rw [hb.2.2.2.2.2]
  apply List.mem_append_left
  have hv : (Server.timer_expired s).validate = true := rfl
  rw [if_pos hv]
  unfold Server.send_validation
  rw [hkey, validate_text_eq _ hk, List.mem_map]
  refine ⟨i, ?_, ?_⟩
  · rw [List.mem_filter]
    refine ⟨List.mem_range.2 hlt, ?_⟩
    simp only [bne_iff_ne, ne_eq]
    exact hinv.1.keyed i hocc
  · rw [htab, hf.2]

/-- C9, amended, at the server with two registered peers: after the timer expired, the reply
run for `abc123xyz0 hello 1` sends the challenge to the address of cell 1. -/
theorem challenge_sent_on_next_message_witness :
    ({ text := exServer2.local_server_key ++ " validate ".data,
       dest := exServer2.tab.sender_addrs 1 } : Sent) ∈
      (Server.rx_body (Server.timer_expired exServer2) exHello1 exKeyA "hello 1".data).sent :=
  (challenge_sent_on_next_message exServer2 exServer2_reachable).2.2.2.2.2 exHello1
    (Server.rx_body (Server.timer_expired exServer2) exHello1 exKeyA "hello 1".data)
    rfl rfl 1 (by decide)

/-! ## C10: one broadcast for each expiry of the timer -/

theorem client_body_counts (s : Client.State) (dg : Datagram) (K save : List Char) :
    (Client.rx_body s dg K save).state.tx_count = s.tx_count ∧
    (Client.rx_body s dg K save).state.missed_tx_count = s.missed_tx_count ∧
    (Client.rx_body s dg K save).state.initialSetupPUF = s.initialSetupPUF := by
  unfold Client.rx_body
  cases h : (verify s.tab dg.sender_addr dg.sender_port K).2.returns <;>
    cases hv : s.validate <;> by_cases ht : strtok_next save = some VALIDATE <;>
    simp [hv, ht, h]

/-- C11. The claim fails on the code at a mismatch whose verb is `validate`: the client has
peer A registered and `validate` clear; `zzz999yyy1 validate ` from the endpoint of A is not
verified and nothing is sent, the arrays, `rx_count` and the key are as before, but
`validate` is set when the callback returns. The server, on the same datagram, leaves both its
flags clear. -/
theorem client_mismatch_sets_validate :
    exClient1.validate = false ∧
    (Client.udp_rx_callback exClient1 exAttackValidate).map
        (fun r => (r.exit, r.sent, r.state.validate, r.state.rx_count,
          r.state.local_client_key)) =
      some (LoopExit.notVerified 0, [], true, exClient1.rx_count,
        exClient1.local_client_key) ∧
    (∀ r, Client.udp_rx_callback exClient1 exAttackValidate = some r →
      r.state.tab = exClient1.tab) ∧
    (Server.udp_rx_callback exServer1 exAttackValidate).map
        (fun r => (r.exit, r.state.validate, r.state.servervalidate)) =
      some (LoopExit.notVerified 0, false, false) := by
  refine ⟨rfl, by decide, ?_, by decide⟩
  intro r hr
  rw [client_rx_some exClient1 exAttackValidate "zzz999yyy1".data "validate ".data rfl] at hr
  simp only [Option.some.injEq] at hr
  have e : (verify exClient1.tab exAttackValidate.sender_addr exAttackValidate.sender_port
      "zzz999yyy1".data).2.returns = true := by decide
  rw [← hr, (client_body_tab exClient1 exAttackValidate _ _).1, verify_returns_tab _ _ _ _ e]

/-! ## C12: a new endpoint when the arrays are full -/

/-- C12, as stated, fails: the server holds ten peers and `klm789nop1 hello 0` comes from an
eleventh endpoint, at address 11; the loop ends by exhaustion, and the server sends the echo
reply `abcdefghij hello 0` to address 11. -/
theorem table_full_reply_counterexample :
    (∀ i, i < MAX_NODES → ¬ exServerFull.tab.isEmpty i) ∧
    (∀ i, i < MAX_NODES →
      ¬ exServerFull.tab.isSender i exEleventh.sender_addr exEleventh.sender_port) ∧
    (Server.udp_rx_callback exServerFull exEleventh).map (fun r => (r.exit, r.sent)) =
      some (LoopExit.exhausted, [{ text := "abcdefghij hello 0".data, dest := 11 }]) := by
  decide

/-- C12, amended. When the ten cells of the server are occupied and a datagram that carries a
key comes from an endpoint that is in none of them, no entry is made (the arrays stay as they
are, the loop ends by exhaustion) and the run goes on as for a known peer: after the pending
broadcast, if any, the server sends the echo reply to that sender. -/
theorem table_full_still_replies (s : Server.State) (dg : Datagram) (K save : List Char)
    (htok : strtok (rx_text dg) = some (K, save))
    (hfull : ∀ i, i < MAX_NODES → ¬ s.tab.isEmpty i)
    (hnot : ∀ i, i < MAX_NODES → ¬ s.tab.isSender i dg.sender_addr dg.sender_port) :
    ∃ r, Server.udp_rx_callback s dg = some r ∧ r.exit = LoopExit.exhausted ∧
      r.state.tab = s.tab ∧
      r.sent = (if s.validate then Server.send_validation r.state else []) ++
        [Server.echo_reply s dg K] ∧
      (Server.echo_reply s dg K).dest = dg.sender_addr := by
  have hv := verify_exhausted s.tab dg.sender_addr dg.sender_port K
    (fun m _ hm => ⟨hnot m hm, hfull m hm⟩)
  have hacc : (verify s.tab dg.sender_addr dg.sender_port K).2.returns = false := by
    rw [hv]; rfl
  have hb := server_body_accepts s dg K save hacc
  refine ⟨_, server_rx_some s dg K save htok, ?_, ?_, hb.2.2.2.2.2, rfl⟩
  · rw [server_body_exit, hv]
  · rw [hb.1, hv]

/-- C12, amended, at scenario E: the server with ten peers answers the eleventh endpoint. -/
theorem table_full_still_replies_witness :
    ∃ r, Server.udp_rx_callback exServerFull exEleventh = some r ∧
      r.exit = LoopExit.exhausted ∧ r.state.tab = exServerFull.tab ∧
      r.sent = (if exServerFull.validate then Server.send_validation r.state else []) ++
        [Server.echo_reply exServerFull exEleventh "klm789nop1".data] ∧
      (Server.echo_reply exServerFull exEleventh "klm789nop1".data).dest =
        exEleventh.sender_addr :=
  table_full_still_replies exServerFull exEleventh "klm789nop1".data "hello 0".data rfl
    (by decide) (by decide)

/-! ## C13: a datagram without key -/

/-- C13. The claim fails on the code for a datagram without key field: for the datagram of
length zero and for the one of three spaces the first `strtok` gives `NULL`, no run of either
callback is defined, and the callback does not return before it uses the key: in the started
server and client, with cell 0 free, the loop reaches `strcpy(remotekeys[0], token)` with
`token == NULL`; with peer A registered and the datagram coming from its endpoint, it reaches
`strcmp(remotekeys[0], remotekey)` with `remotekey` not written. -/
theorem no_key_field_not_dropped :
    strtok (cstr exEmpty.data) = none ∧ strtok (cstr exSpaces.data) = none ∧
    Server.udp_rx_callback exServer0 exEmpty = none ∧
    Server.udp_rx_callback exServer0 exSpaces = none ∧
    Client.udp_rx_callback exClient0 exEmpty = none ∧
    Client.udp_rx_callback exClient0 exSpaces = none ∧
    first_key_use exServer0.tab exEmpty.sender_addr exEmpty.sender_port MAX_NODES 0 =
      KeyUse.strcpy_null 0 ∧
    first_key_use exClient0.tab exEmpty.sender_addr exEmpty.sender_port MAX_NODES 0 =
      KeyUse.strcpy_null 0 ∧
    first_key_use exServer1.tab exSpaces.sender_addr exSpaces.sender_port MAX_NODES 0 =
      KeyUse.strcmp_unwritten 0 :=
  ⟨rfl, rfl, rfl, rfl, rfl, rfl, rfl, rfl, rfl⟩

/-! ## C14: decoding -/

theorem rx_key_verb (dg : Datagram) (K V rest : List Char) (d : Char)
    (hd : dg.data = K ++ ' ' :: (V ++ d :: rest)) (hK : K ≠ [])
    (hc : ∀ c ∈ K, c ≠ ' ' ∧ c ≠ NUL) (hV : V ≠ []) (hv : ∀ c ∈ V, c ≠ ' ' ∧ c ≠ NUL)
    (hdel : d = ' ' ∨ d = NUL) (hsize : dg.data.length < COPY_SIZE) :
    ∃ save, strtok (rx_text dg) = some (K, save) ∧ strtok_next save = some V := by
  have hl : (K ++ ' ' :: (V ++ [d])).length ≤ TERMINATOR_INDEX := by
    have h1 := hsize
    rw [hd] at h1
    simp only [List.length_append, List.length_cons, COPY_SIZE] at h1
    simp only [List.length_append, List.length_cons, List.length_nil, TERMINATOR_INDEX]
    omega
  have e : dg.data ++ dg.stale_copy.drop dg.data.length =
      (K ++ ' ' :: (V ++ [d])) ++ (rest ++ dg.stale_copy.drop dg.data.length) := by
    rw [hd]; simp
  have e2 : ∀ Y : List Char, (K ++ ' ' :: (V ++ [d])) ++ Y = K ++ ' ' :: (V ++ d :: Y) := by
    intro Y; simp
  unfold rx_text data_copy memcpy
  rw [e, take_all_append _ _ _ hl, e2, cstr_key_space K _ hc]
  rcases hdel with h | h
  · subst h
    rw [cstr_key_space V _ hv]
    refine ⟨_, strtok_key_space K _ hK hc, ?_⟩
    unfold strtok_next
    rw [strtok_key_space V _ hV hv]
    rfl
  · subst h
    rw [cstr_key_nul V _ hv]
    refine ⟨_, strtok_key_space K _ hK hc, ?_⟩
    unfold strtok_next
    rw [strtok_key_end V hV hv]
    rfl

theorem rx_key_alone (dg : Datagram) (K rest : List Char)
    (hd : dg.data = K ++ NUL :: rest) (hK : K ≠ [])
    (hc : ∀ c ∈ K, c ≠ ' ' ∧ c ≠ NUL) (hsize : dg.data.length < COPY_SIZE) :
    strtok (rx_text dg) = some (K, []) := by
  have hl : (K ++ [NUL]).length ≤ TERMINATOR_INDEX := by
    have h1 := hsize
    rw [hd] at h1
    simp only [List.length_append, List.length_cons, COPY_SIZE] at h1
    simp only [List.length_append, List.length_cons, List.length_nil, TERMINATOR_INDEX]
    omega
  have e : dg.data ++ dg.stale_copy.drop dg.data.length =
      (K ++ [NUL]) ++ (rest ++ dg.stale_copy.drop dg.data.length) := by
    rw [hd]; simp
  have e2 : ∀ Y : List Char, (K ++ [NUL]) ++ Y = K ++ NUL :: Y := by
    intro Y; simp
  unfold rx_text data_copy memcpy
  rw [e, take_all_append _ _ _ hl, e2, cstr_key_nul K _ hc]
  exact strtok_key_end K hK hc

theorem fields_key_verb (K V rest : List Char) (d : Char)
    (hc : ∀ c ∈ K, c ≠ ' ' ∧ c ≠ NUL) (hv : ∀ c ∈ V, c ≠ ' ' ∧ c ≠ NUL)
    (hdel : d = ' ' ∨ d = NUL) :
    spec_field0 (cstr (K ++ ' ' :: (V ++ d :: rest))) = K ∧
    spec_field1 (cstr (K ++ ' ' :: (V ++ d :: rest))) = some V := by
  rw [cstr_key_space K _ hc]
  unfold spec_field0 spec_field1
  rw [(takeWhile_key K _ hc).1, (takeWhile_key K _ hc).2]
  refine ⟨rfl, ?_⟩
  rcases hdel with h | h
  · subst h
    simp only [cstr_key_space V _ hv, (takeWhile_key V _ hv).1]
  · subst h
    simp only [cstr_key_nul V _ hv, (takeWhile_key_end V hv).1]

theorem fields_key_alone (K rest : List Char) (hc : ∀ c ∈ K, c ≠ ' ' ∧ c ≠ NUL) :
    spec_field0 (cstr (K ++ NUL :: rest)) = K ∧
    spec_field1 (cstr (K ++ NUL :: rest)) = none := by
  rw [cstr_key_nul K _ hc]
  unfold spec_field0 spec_field1
  rw [(takeWhile_key_end K hc).1, (takeWhile_key_end K hc).2]
  exact ⟨rfl, rfl⟩

theorem client_body_received (s : Client.State) (dg : Datagram) (K save : List Char) :
    (Client.rx_body s dg K save).received_validation =
      decide (strtok_next save = some VALIDATE) := by
  unfold Client.rx_body
  by_cases ht : strtok_next save = some VALIDATE <;> simp only [ht, if_true, if_false] <;>
    split <;> simp

theorem server_body_received (s : Server.State) (dg : Datagram) (K save : List Char)
    (h : (Server.rx_body s dg K save).exit.returns = false) :
    (Server.rx_body s dg K save).received_validation =
      decide (strtok_next save = some VALIDATE) := by
  rw [server_body_exit] at h
  unfold Server.rx_body
  simp only [h]
  rfl

/-- C14, as stated, fails for repeated and leading spaces. In `zzz999yyy1  validate ` field 1,
between the first and the second space, is empty, yet the client that receives it from the
endpoint of peer A takes `validate` for its verb: it logs "Received validation message" and
sets `validate`. In ` abc hello 0` field 0, before the first space, is empty, yet the started
server registers the sender with the key `abc`. It also fails when the array `data_copy`
holds no terminator behind the bytes received: in `zz validate` field 1 is `validate`, yet
with the bytes a run on `abcdefghij hello 0` left in the array the client reads the verb
`validatehello` and does not log the message. -/
theorem decode_repeated_space_counterexample :
    spec_field1 (cstr exDouble.data) = some [] ∧
    rx_text exDouble = cstr exDouble.data ∧
    (Client.udp_rx_callback exClient1 exDouble).map
        (fun r => (r.exit, r.received_validation, r.state.validate)) =
      some (LoopExit.notVerified 0, true, true) ∧
    spec_field0 (cstr exLeading.data) = [] ∧
    rx_text exLeading = cstr exLeading.data ∧
    (Server.udp_rx_callback exServer0 exLeading).map
        (fun r => (r.exit, decide (r.state.tab.key_is 0 "abc".data))) =
      some (LoopExit.added 0, true) ∧
    spec_field1 (cstr exVerbStale.data) = some VALIDATE ∧
    rx_text exVerbStale = "zz validatehello".data ∧
    (Client.udp_rx_callback exClient0 exVerbStale).map
        (fun r => (r.exit, r.received_validation)) =
      some (LoopExit.added 0, false) := by
  decide

/-- C14, amended. In the client and in the server, for every state and every datagram of at
most 120 bytes. When the bytes are a key `K` (not empty, at most 19 characters), one space, a
verb `V` (not empty), then a space or a terminator, and any bytes (no character of `K` or `V`
being a space or a terminator): field 0 of the text is `K` and field 1 is `V`; the callback
runs with `K` as the key, and it logs "Received validation message" exactly when `V` is
`validate` (the client in every such run, the server when the loop does not return). When
the bytes are a key `K`, then a terminator, and any bytes: field 0 is `K`, there is no field
1, the callback runs with `K` as the key and does not log that message. -/
theorem decode_single_spaces :
    (∀ (dg : Datagram) (K V rest : List Char) (d : Char),
      dg.data = K ++ ' ' :: (V ++ d :: rest) → dg.data.length < COPY_SIZE →
      K ≠ [] → K.length < KEY_SIZE → (∀ c ∈ K, c ≠ ' ' ∧ c ≠ NUL) →
      V ≠ [] → (∀ c ∈ V, c ≠ ' ' ∧ c ≠ NUL) → (d = ' ' ∨ d = NUL) →
      spec_field0 (cstr dg.data) = K ∧ spec_field1 (cstr dg.data) = some V ∧
      (∀ (s : Client.State), ∃ save,
        Client.udp_rx_callback s dg = some (Client.rx_body s dg K save) ∧
        ((Client.rx_body s dg K save).received_validation = true ↔ V = VALIDATE)) ∧
      (∀ (s : Server.State), ∃ save,
        Server.udp_rx_callback s dg = some (Server.rx_body s dg K save) ∧
        ((Server.rx_body s dg K save).exit.returns = false →
          ((Server.rx_body s dg K save).received_validation = true ↔ V = VALIDATE)))) ∧
    (∀ (dg : Datagram) (K rest : List Char),
      dg.data = K ++ NUL :: rest → dg.data.length < COPY_SIZE →
      K ≠ [] → K.length < KEY_SIZE → (∀ c ∈ K, c ≠ ' ' ∧ c ≠ NUL) →
      spec_field0 (cstr dg.data) = K ∧ spec_field1 (cstr dg.data) = none ∧
      (∀ (s : Client.State), ∃ save,
        Client.udp_rx_callback s dg = some (Client.rx_body s dg K save) ∧
        (Client.rx_body s dg K save).received_validation = false) ∧
      (∀ (s : Server.State), ∃ save,
        Server.udp_rx_callback s dg = some (Server.rx_body s dg K save) ∧
        (Server.rx_body s dg K save).received_validation = false)) := by
  constructor
  · intro dg K V rest d hd hsize hK _ hc hV hv hdel
    obtain ⟨save, htok, hnext⟩ := rx_key_verb dg K V rest d hd hK hc hV hv hdel hsize
    have hf := fields_key_verb K V rest d hc hv hdel
    rw [← hd] at hf
    refine ⟨hf.1, hf.2, fun s => ⟨save, client_rx_some s dg K save htok, ?_⟩,
      fun s => ⟨save, server_rx_some s dg K save htok, fun hacc => ?_⟩⟩
    · rw [client_body_received, hnext]
      simp
    · rw [server_body_received s dg K save hacc, hnext]
      simp
  · intro dg K rest hd hsize hK _ hc
    have htok := rx_key_alone dg K rest hd hK hc hsize
    have hf := fields_key_alone K rest hc
    rw [← hd] at hf
    have hn : strtok_next [] = none := rfl
    refine ⟨hf.1, hf.2, fun s => ⟨[], client_rx_some s dg K [] htok, ?_⟩,
      fun s => ⟨[], server_rx_some s dg K [] htok, ?_⟩⟩
    · rw [client_body_received, hn]
      rfl
    · cases hx : (Server.rx_body s dg K []).exit.returns
      · rw [server_body_received s dg K [] hx, hn]
        rfl
      · rw [server_body_exit] at hx
        rw [server_body_returns s dg K [] hx]

/-- C14, amended, at the challenge of a server: in `abc123xyz0 validate ` the key is field 0
and the verb is field 1, `validate`, and the started client logs "Received validation
message". -/
theorem decode_single_spaces_witness :
    spec_field0 (cstr exChallenge.data) = exKeyA ∧
    spec_field1 (cstr exChallenge.data) = some VALIDATE ∧
    (∀ (s : Client.State), ∃ save,
      Client.udp_rx_callback s exChallenge = some (Client.rx_body s exChallenge exKeyA save) ∧
      ((Client.rx_body s exChallenge exKeyA save).received_validation = true ↔
        VALIDATE = VALIDATE)) ∧
    (∀ (s : Server.State), ∃ save,
      Server.udp_rx_callback s exChallenge = some (Server.rx_body s exChallenge exKeyA save) ∧
      ((Server.rx_body s exChallenge exKeyA save).exit.returns = false →
        ((Server.rx_body s exChallenge exKeyA save).received_validation = true ↔
          VALIDATE = VALIDATE))) :=
  decode_single_spaces.1 exChallenge exKeyA VALIDATE [] ' ' rfl (by decide) (by decide)
    (by decide) (by decide) (by decide) (by decide) (Or.inl rfl)

/-! ## C15: what a peer encodes, the other decodes -/

theorem decode_key_verb (key V rest : List Char) (hk : key ≠ [])
    (hc : ∀ c ∈ key, c ≠ ' ' ∧ c ≠ NUL) (hV : V ≠ []) (hv : ∀ c ∈ V, c ≠ ' ' ∧ c ≠ NUL) :
    ∃ save, strtok (cstr (key ++ ' ' :: (V ++ ' ' :: rest))) = some (key, save) ∧
      strtok_next save = some V := by
  refine ⟨cstr (V ++ ' ' :: rest), ?_, ?_⟩
  · rw [cstr_key_space key _ hc]
    exact strtok_key_space key _ hk hc
  · rw [cstr_key_space V rest hv]
    unfold strtok_next
    rw [strtok_key_space V _ hV hv]
    rfl

/-- C15. Codec round trip. For every key of 1 to 19 characters, none a space or the
terminator, and every counter `n`: the text the client sends, `<key> hello <n>`, is decoded by
the callbacks to the key `<key>` and the second token `hello`, which is not `validate`; and
the text the server sends as challenge, `<key> validate ` with its last space, is decoded to
the key `<key>` and the second token `validate`. -/
theorem codec_round_trip (key : List Char) (n : Nat) (hk : key ≠ [])
    (hlen : key.length ≤ 19) (hc : ∀ c ∈ key, c ≠ ' ' ∧ c ≠ NUL) :
    (∃ save, strtok (cstr (Client.hello_text key n)) = some (key, save) ∧
      strtok_next save = some HELLO ∧ HELLO ≠ VALIDATE) ∧
    (∃ save, strtok (cstr (Server.validate_text key)) = some (key, save) ∧
      strtok_next save = some VALIDATE) := by
  constructor
  · have e : Client.hello_text key n =
        key ++ ' ' :: (HELLO ++ ' ' ::
          (Nat.toDigits 10 n).take (STR_SIZE - 1 - (key.length + 7))) := by
      unfold Client.hello_text
      have e1 : key ++ [' ', 'h', 'e', 'l', 'l', 'o', ' '] ++ Nat.toDigits 10 n =
          (key ++ [' ', 'h', 'e', 'l', 'l', 'o', ' ']) ++ Nat.toDigits 10 n := rfl
      rw [e1, take_all_append _ _ _ (by simp [STR_SIZE]; omega)]
      simp [HELLO]
    rw [e]
    obtain ⟨save, h1, h2⟩ := decode_key_verb key HELLO _ hk hc (by decide) (by decide)
    exact ⟨save, h1, h2, by decide⟩
  · have e : Server.validate_text key = key ++ ' ' :: (VALIDATE ++ ' ' :: []) := by
      unfold Server.validate_text
      rw [List.take_of_length_le (by simp [STR_SIZE, VALIDATE]; omega)]
      simp
    rw [e]
    exact decode_key_verb key VALIDATE _ hk hc (by decide) (by decide)

/-- C15, at the key `abcdefghij` and the counter 7. -/
theorem codec_round_trip_witness :
    (∃ save, strtok (cstr (Client.hello_text "abcdefghij".data 7)) =
        some ("abcdefghij".data, save) ∧
      strtok_next save = some HELLO ∧ HELLO ≠ VALIDATE) ∧
    (∃ save, strtok (cstr (Server.validate_text "abcdefghij".data)) =
        some ("abcdefghij".data, save) ∧
      strtok_next save = some VALIDATE) :=
  codec_round_trip "abcdefghij".data 7 (by decide) (by decide) (by decide)

/-! ## C16: the length of a datagram -/

set_option maxRecDepth 8000 in
/-- C16. The claim fails on the code: there is no test of the length. A datagram of 131
bytes from a new endpoint is not rejected: server and client register its sender with the
key `abc123xyz0`, and the server sends a reply, of 131 bytes. And the index at which the
terminator of the copy is written is not inside the copy buffer of 121 bytes. -/
theorem too_long_not_rejected :
    exLong.data.length = 131 ∧
    (Server.udp_rx_callback exServer0 exLong).map
        (fun r => (r.exit, decide (r.state.tab.key_is 0 exKeyA), r.state.tab.sender_addrs 0,
          r.sent.map (fun p => (p.text.length, p.dest)))) =
      some (LoopExit.added 0, true, 1, [(131, 1)]) ∧
    (Client.udp_rx_callback exClient0 exLong).map
        (fun r => (r.exit, decide (r.state.tab.key_is 0 exKeyA), r.state.tab.sender_addrs 0)) =
      some (LoopExit.added 0, true, 1) ∧
    ¬ TERMINATOR_INDEX < COPY_SIZE := by
  decide

/-! ## C17: the announcement of the client -/

theorem toDigits_length_le (n : Nat) (h : n < 2 ^ 32) : (Nat.toDigits 10 n).length ≤ 10 := by
  unfold Nat.toDigits
  exact Nat.toDigitsCore_length 10 (by decide) (n + 1) n 10
    (lt_of_lt_of_le h (by norm_num)) (by decide)

theorem hello_text_eq (key : List Char) (n : Nat) (hk : key.length ≤ 19) (hn : n < 2 ^ 32) :
    Client.hello_text key n = key ++ " hello ".data ++ Nat.toDigits 10 n := by
  unfold Client.hello_text
  have e : key ++ [' ', 'h', 'e', 'l', 'l', 'o', ' '] = key ++ " hello ".data := rfl
  rw [e]
  apply List.take_of_length_le
  have := toDigits_length_le n hn
  have h7 : (" hello ".data).length = 7 := rfl
  rw [List.length_append, List.length_append, h7]
  simp only [STR_SIZE]
  omega

theorem client_step_counts (s s1 : Client.State) (e : Client.Event) (out : List Sent)
    (he : Client.step s e = some (s1, out)) :
    s1.local_client_key = s.local_client_key ∧
    ((out = [] ∧ s1.tx_count = s.tx_count) ∨
      (∃ d, out = [{ text := Client.hello_text s.local_client_key s.tx_count, dest := d }] ∧
        s1.tx_count = (s.tx_count + 1) % 2 ^ 32)) := by
  cases e with
  | timer route =>
    simp only [Client.step, Option.some.injEq] at he
    cases route with
    | some d =>
      simp only [Client.timer_expired, Prod.mk.injEq] at he
      rw [← he.1, ← he.2]
      exact ⟨rfl, Or.inr ⟨d, rfl, rfl⟩⟩
    | none =>
      unfold Client.timer_expired at he
      simp only at he
      split at he
      · simp only [Prod.mk.injEq] at he
        rw [← he.1, ← he.2]
        exact ⟨rfl, Or.inl ⟨rfl, rfl⟩⟩
      · simp only [Prod.mk.injEq] at he
        rw [← he.1, ← he.2]
        exact ⟨rfl, Or.inl ⟨rfl, rfl⟩⟩
  | rx dg =>
    simp only [Client.step, Option.map_eq_some'] at he
    obtain ⟨r, hr, e2⟩ := he
    obtain ⟨K, save, _, _, rfl⟩ := client_rx_inv _ _ _ hr
    simp only [Prod.mk.injEq] at e2
    rw [← e2.1, ← e2.2]
    have hb := client_body_tab s dg K save
    have hc := client_body_counts s dg K save
    exact ⟨hb.2.1, Or.inl ⟨hb.2.2, hc.1⟩⟩

theorem client_reachable_counts (s : Client.State) (h : Client.Reachable s) :
    s.local_client_key.length = 10 ∧ s.tx_count < 2 ^ 32 := by
  induction h with
  | start rand =>
    simp only [Client.process_begin, Client.State.init, if_true]
    exact ⟨keygen_length rand, by norm_num⟩
  | step _ e he ih =>
    obtain ⟨hk, ht⟩ := client_step_counts _ _ e _ he
    rw [hk]
    refine ⟨ih.1, ?_⟩
    rcases ht with ⟨_, h2⟩ | ⟨_, _, h2⟩
    · rw [h2]; exact ih.2
    · rw [h2]; exact Nat.mod_lt _ (by norm_num)

theorem client_run_counts (es : List Client.Event) :
    ∀ (s s1 : Client.State) (out : List Sent) (c : Nat),
      Client.run s es = some (s1, out) → s.tx_count = c % 2 ^ 32 →
      s.local_client_key.length = 10 →
      s1.tx_count = (c + out.length) % 2 ^ 32 ∧
      ∀ (k : Nat) (p : Sent), out[k]? = some p →
        p.text = s.local_client_key ++ " hello ".data ++ Nat.toDigits 10 ((c + k) % 2 ^ 32) := by
  induction es with
  | nil =>
    intro s s1 out c h hc _
    simp only [Client.run, Option.some.injEq, Prod.mk.injEq] at h
    rw [← h.1, ← h.2]
    exact ⟨by simpa using hc, fun k p hp => by simp at hp⟩
  | cons e es ih =>
    intro s s1 out c h hc hlen
    unfold Client.run at h
    split at h
    · simp at h
    · rename_i s2 out2 he
      split at h
      · simp at h
      · rename_i s3 out3 hr
        simp only [Option.some.injEq, Prod.mk.injEq] at h
        obtain ⟨hk, ht⟩ := client_step_counts _ _ e _ he
        have hlen2 : s2.local_client_key.length = 10 := by rw [hk]; exact hlen
        rw [← h.1, ← h.2]
        rcases ht with ⟨h1, h2⟩ | ⟨d, h1, h2⟩
        · have := ih s2 s3 out3 c hr (by rw [h2]; exact hc) hlen2
          rw [h1, hk] at *
          simpa using this
        · have hc2 : s2.tx_count = (c + 1) % 2 ^ 32 := by
            rw [h2, hc, Nat.add_mod, Nat.mod_mod, ← Nat.add_mod]
          have := ih s2 s3 out3 (c + 1) hr hc2 hlen2
          rw [hk] at this
          rw [h1]
          constructor
          · rw [this.1]
            congr 1
            simp only [List.length_append, List.length_singleton]
            omega
          · intro k p hp
            cases k with
            | zero =>
              simp only [List.singleton_append, List.getElem?_cons_zero,
                Option.some.injEq] at hp
              rw [← hp, hc]
              simp only [Nat.add_zero]
              exact hello_text_eq _ _ (by omega) (Nat.mod_lt _ (by norm_num))
            | succ k =>
              simp only [List.singleton_append, List.getElem?_cons_succ] at hp
              have := this.2 k p hp
              rw [this]
              congr 3
              omega

/-- C17. On every expiry of the timer of a running client with the destination reachable,
the client sends one datagram to the destination, with the text `<key> hello <c>`, `c` the
send counter `tx_count` in decimal, and then adds one to the counter (modulo 2^32). An expiry
with the destination not reachable, and a run of the receive callback, send nothing and leave
the counter. So the datagrams a client sends from its start carry 0, 1, 2, ... in order: the
`k`-th has the text `<key> hello <k mod 2^32>`, and the counter is the number of datagrams
sent, modulo 2^32. -/
theorem client_announcement :
    (∀ (s : Client.State), Client.Reachable s → ∀ (dest : Nat),
      Client.timer_expired s (some dest) =
        ({ s with tx_count := (s.tx_count + 1) % 2 ^ 32 },
         [{ text := s.local_client_key ++ " hello ".data ++ Nat.toDigits 10 s.tx_count,
            dest := dest }])) ∧
    (∀ (s : Client.State), (Client.timer_expired s none).2 = [] ∧
      (Client.timer_expired s none).1.tx_count = s.tx_count) ∧
    (∀ (s : Client.State) (dg : Datagram) (r : RxResult Client.State),
      Client.udp_rx_callback s dg = some r → r.sent = [] ∧ r.state.tx_count = s.tx_count) ∧
    (∀ (rand : Nat → Nat) (es : List Client.Event) (s : Client.State) (out : List Sent),
      Client.run (Client.process_begin rand Client.State.init) es = some (s, out) →
      s.tx_count = out.length % 2 ^ 32 ∧
      ∀ (k : Nat) (p : Sent), out[k]? = some p →
        p.text = keygen rand ++ " hello ".data ++ Nat.toDigits 10 (k % 2 ^ 32)) := by
  refine ⟨?_, ?_, ?_, ?_⟩
  · intro s hs dest
    obtain ⟨hk, ht⟩ := client_reachable_counts s hs
    simp only [Client.timer_expired]
    rw [hello_text_eq _ _ (by omega) ht]
  · intro s
    unfold Client.timer_expired
    simp only
    split <;> exact ⟨rfl, rfl⟩
  · intro s dg r hr
    obtain ⟨K, save, _, _, rfl⟩ := client_rx_inv _ _ _ hr
    exact ⟨(client_body_tab s dg K save).2.2, (client_body_counts s dg K save).1⟩
  · intro rand es s out h
    have h0 : (Client.process_begin rand Client.State.init).tx_count = 0 % 2 ^ 32 := rfl
    have hl : (Client.process_begin rand Client.State.init).local_client_key.length = 10 :=
      keygen_length rand
    have := client_run_counts es _ s out 0 h h0 hl
    simp only [Nat.zero_add] at this
    exact this

/-- C17, at a client that receives one message between two expiries with the destination, at
address 9, reachable, and one expiry without: two datagrams are sent, and the second has the
text `abcdefghij hello 1`. -/
theorem client_announcement_witness :
    (Client.run exClient0 [Client.Event.timer (some 9), Client.Event.rx exHello0,
        Client.Event.timer none, Client.Event.timer (some 9)]).map
      (fun p => (p.1.tx_count, p.2)) =
      some (2, [{ text := "abcdefghij hello 0".data, dest := 9 },
                { text := "abcdefghij hello 1".data, dest := 9 }]) ∧
    ({ text := "abcdefghij hello 1".data, dest := 9 } : Sent).text =
      keygen exRand ++ " hello ".data ++ Nat.toDigits 10 (1 % 2 ^ 32) :=
  ⟨by decide,
   (client_announcement.2.2.2 exRand
      [Client.Event.timer (some 9), Client.Event.rx exHello0, Client.Event.timer none,
        Client.Event.timer (some 9)]
      ((Client.timer_expired (Client.timer_expired
        (Client.rx_body (Client.timer_expired exClient0 (some 9)).1 exHello0 exKeyA
          "hello 0".data).state none).1 (some 9)).1)
      [{ text := "abcdefghij hello 0".data, dest := 9 },
       { text := "abcdefghij hello 1".data, dest := 9 }] (by rfl)).2 1
      { text := "abcdefghij hello 1".data, dest := 9 } rfl⟩

/-! ## C18: a missed send -/

/-- C18, as stated, fails before the first send: the started client has `tx_count` 0, its
timer expires with the destination not reachable, and `missed_tx_count` stays 0; the whole
state is as before. -/
theorem missed_send_counterexample :
    exClient0.tx_count = 0 ∧ exClient0.missed_tx_count = 0 ∧
    (Client.timer_expired exClient0 none).2 = [] ∧
    (Client.timer_expired exClient0 none).1.missed_tx_count = 0 ∧
    (Client.step exClient0 (Client.Event.timer none)).map Prod.fst = some exClient0 :=
  ⟨rfl, rfl, rfl, rfl, rfl⟩

/-- C18, amended. On every expiry of the timer at which the destination is not reachable the
client sends nothing and leaves `tx_count` as it is; when `tx_count` is not 0 it adds one to
`missed_tx_count` (modulo 2^32, so by exactly one below 2^32 - 1) and changes nothing else;
when `tx_count` is 0 the state stays as it is. -/
theorem missed_send (s : Client.State) :
    (Client.timer_expired s none).2 = [] ∧
    (Client.timer_expired s none).1.tx_count = s.tx_count ∧
    (s.tx_count ≠ 0 →
      (Client.timer_expired s none).1 =
        { s with missed_tx_count := (s.missed_tx_count + 1) % 2 ^ 32 } ∧
      (s.missed_tx_count + 1 < 2 ^ 32 →
        (Client.timer_expired s none).1.missed_tx_count = s.missed_tx_count + 1)) ∧
    (s.tx_count = 0 → (Client.timer_expired s none).1 = s) := by
  unfold Client.timer_expired
  simp only
  by_cases h : s.tx_count > 0
  · simp only [h, if_true]
    refine ⟨trivial, trivial, fun _ => ⟨trivial, fun hlt => Nat.mod_eq_of_lt hlt⟩,
      fun h0 => absurd h0 (by omega)⟩
  · simp only [h, if_false]
    exact ⟨trivial, trivial, fun hne => absurd (by omega) hne, fun _ => trivial⟩

/-- C18, amended, at a client that sent one announcement: the next expiry with the
destination not reachable makes `missed_tx_count` 1 and leaves `tx_count` 1. -/
theorem missed_send_witness :
    (Client.timer_expired (Client.timer_expired exClient0 (some 9)).1 none).1.missed_tx_count
        = 0 + 1 ∧
    (Client.timer_expired (Client.timer_expired exClient0 (some 9)).1 none).1.tx_count = 1 :=
  ⟨((missed_send (Client.timer_expired exClient0 (some 9)).1).2.2.1 (by decide)).2
      (by decide),
   (missed_send (Client.timer_expired exClient0 (some 9)).1).2.1⟩

/-! ## C19: the key of a peer is not changed by a message -/

/-- C19. Key stability, in the server and in the client: the callback runs on every datagram
that carries a key, whatever its verb, and after any run the key of the peer
(`local_server_key`, `local_client_key`) is the key before the run. -/
theorem key_unchanged_by_receive :
    (∀ (s : Server.State) (dg : Datagram),
      (∀ K save, strtok (rx_text dg) = some (K, save) →
        ∃ r, Server.udp_rx_callback s dg = some r) ∧
      ∀ r, Server.udp_rx_callback s dg = some r →
        r.state.local_server_key = s.local_server_key) ∧
    (∀ (s : Client.State) (dg : Datagram),
      (∀ K save, strtok (rx_text dg) = some (K, save) →
        ∃ r, Client.udp_rx_callback s dg = some r) ∧
      ∀ r, Client.udp_rx_callback s dg = some r →
        r.state.local_client_key = s.local_client_key) := by
  constructor
  · intro s dg
    refine ⟨fun K save h => ⟨_, server_rx_some s dg K save h⟩, ?_⟩
    intro r hr
    obtain ⟨K, save, _, _, rfl⟩ := server_rx_inv _ _ _ hr
    exact (server_body_tab s dg K save).2.1
  · intro s dg
    refine ⟨fun K save h => ⟨_, client_rx_some s dg K save h⟩, ?_⟩
    intro r hr
    obtain ⟨K, save, _, _, rfl⟩ := client_rx_inv _ _ _ hr
    exact (client_body_tab s dg K save).2.1

/-- C19, at a challenge: the client receives `abc123xyz0 validate ` from the server at
address 1 and port 5678, whose second token is `validate`, and keeps its key. -/
theorem key_unchanged_by_receive_witness :
    strtok_next "validate ".data = some VALIDATE ∧
    (Client.rx_body exClient0 exChallenge exKeyA "validate ".data).state.local_client_key =
      exClient0.local_client_key :=
  ⟨by decide,
   (key_unchanged_by_receive.2 exClient0 exChallenge).2
     (Client.rx_body exClient0 exChallenge exKeyA "validate ".data) rfl⟩

/-! ## C20: the generation of the key -/

theorem lowercase_letter :
    ∀ k, k < 26 → (Char.ofNat (k + 'a'.toNat)).toNat = 'a'.toNat + k ∧
      (Char.ofNat (k + 'a'.toNat)).isLower = true := by
  decide

/-- C20. Key generation, in the server and in the client: for every sequence `rand` of
pseudorandom draws the start of the process leaves as key the string `keygen rand`; it has
exactly 10 characters, and for every `i` below 10 its character `i` is the lowercase letter
whose code is that of `a` plus the `i`-th draw modulo 26. -/
theorem key_generation (rand : Nat → Nat) :
    (Server.process_begin rand Server.State.init).local_server_key = keygen rand ∧
    (Client.process_begin rand Client.State.init).local_client_key = keygen rand ∧
    (keygen rand).length = 10 ∧
    ∀ i, i < 10 →
      ∃ c, (keygen rand)[i]? = some c ∧ c.toNat = 'a'.toNat + rand i % 26 ∧
        c.isLower = true := by
  refine ⟨rfl, rfl, keygen_length rand, ?_⟩
  intro i hi
  refine ⟨Char.ofNat (rand i % 26 + 'a'.toNat), ?_, ?_⟩
  · unfold keygen
    rw [List.getElem?_map, List.getElem?_range hi]
    rfl
  · exact lowercase_letter (rand i % 26) (Nat.mod_lt _ (by decide))

/-- C20, at the draws 0, 1, 2, ...: the key is `abcdefghij`, and its character 3 is `d`. -/
theorem key_generation_witness :
    keygen exRand = "abcdefghij".data ∧
    ∃ c, (keygen exRand)[3]? = some c ∧ c.toNat = 'a'.toNat + exRand 3 % 26 ∧
      c.isLower = true :=
  ⟨by decide, (key_generation exRand).2.2.2 3 (by decide)⟩

/-! ## C21: the length of the echo reply -/

set_option maxRecDepth 8000 in
/-- C21. The claim fails on the code: the reply is built by `sprintf` with no bound. The
server with key `abcdefghij` accepts a datagram of 120 bytes, the key `a`, a space and 118
times `x`, registers its sender, and the echo reply it builds has 129 characters, which with
the terminator do not fit the buffer of 121 bytes. -/
theorem reply_exceeds_buffer :
    exShortKey.data.length = 120 ∧
    strtok (cstr exShortKey.data) = some (['a'], List.replicate 118 'x') ∧
    (Server.udp_rx_callback exServer0 exShortKey).map
        (fun r => (r.exit, r.sent.map (fun p => (p.text.length, p.dest)))) =
      some (LoopExit.added 0, [(129, 1)]) ∧
    ¬ (129 + 1 ≤ COPY_SIZE) := by
  decide

/-! ## C22: the occupied cells come first -/

theorem verify_added_inv (t : Tables) (a p : Nat) (k : List Char) (i : Nat)
    (h : (verify t a p k).2 = LoopExit.added i) :
    i < MAX_NODES ∧ t.Passed a p 0 i ∧ ¬ t.isSender i a p ∧ t.isEmpty i ∧
      (verify t a p k).1 = t.store i a p k := by
  rcases verify_cases t a p k with ⟨j, _, _, _, _, e⟩ | ⟨j, _, _, _, _, e⟩ |
    ⟨j, h2, h3, h4, h5, e⟩ | ⟨_, e⟩
  · rw [e] at h; simp at h
  · rw [e] at h; simp at h
  · rw [e] at h
    simp only [LoopExit.added.injEq] at h
    subst h
    exact ⟨h2, h3, h4, h5, by rw [e]⟩
  · rw [e] at h; simp at h

theorem wf_front_shape (t : Tables) (hw : t.WF) :
    ∃ k, k ≤ MAX_NODES ∧
      (∀ i, i < k → ¬ t.isEmpty i ∧ t.remotekeys (KEY_SIZE * i) ≠ NUL) ∧
      (∀ i, k ≤ i → t.isEmpty i) ∧
      (∀ (a p : Nat) (K : List Char) (i : Nat),
        (verify t a p K).2 = LoopExit.added i → i = k) := by
  have hex : ∃ n, t.isEmpty n := ⟨MAX_NODES, hw.outside MAX_NODES (le_refl _)⟩
  have hmin : ∀ i, i < Nat.find hex → ¬ t.isEmpty i := fun i hi => Nat.find_min hex hi
  have hrest : ∀ i, Nat.find hex ≤ i → t.isEmpty i := by
    intro i hi
    rcases Nat.eq_or_lt_of_le hi with h | h
    · rw [← h]; exact Nat.find_spec hex
    · by_contra hc
      exact hw.front i (Nat.find hex) h hc (Nat.find_spec hex)
  refine ⟨Nat.find hex, Nat.find_min' hex (hw.outside MAX_NODES (le_refl _)), ?_, hrest, ?_⟩
  · intro i hi
    exact ⟨hmin i hi, hw.keyed i (hmin i hi)⟩
  · intro a p K i h
    obtain ⟨_, hp, _, he, _⟩ := verify_added_inv t a p K i h
    rcases Nat.lt_trichotomy i (Nat.find hex) with h1 | h1 | h1
    · exact absurd he (hmin i h1)
    · exact h1
    · exact absurd (Nat.find_spec hex) (hp _ (Nat.zero_le _) h1).2

/-- C22. In every state a server or a client reaches from its start by any events there is a
`k`, at most 10, such that the cells below `k` are occupied and hold a key that is not empty
(its first byte is not the terminator), the cells from `k` to 9 are empty (port 0 and the
all-zero address), and every run of the receive callback that registers its sender writes
cell `k`. -/
theorem occupied_cells_first :
    (∀ (s : Server.State), Server.Reachable s →
      ∃ k, k ≤ 10 ∧
        (∀ i, i < k → ¬ s.tab.isEmpty i ∧ s.tab.remotekeys (KEY_SIZE * i) ≠ NUL) ∧
        (∀ i, k ≤ i → i < MAX_NODES → s.tab.isEmpty i) ∧
        (∀ (dg : Datagram) (r : RxResult Server.State) (i : Nat),
          Server.udp_rx_callback s dg = some r → r.exit = LoopExit.added i → i = k)) ∧
    (∀ (s : Client.State), Client.Reachable s →
      ∃ k, k ≤ 10 ∧
        (∀ i, i < k → ¬ s.tab.isEmpty i ∧ s.tab.remotekeys (KEY_SIZE * i) ≠ NUL) ∧
        (∀ i, k ≤ i → i < MAX_NODES → s.tab.isEmpty i) ∧
        (∀ (dg : Datagram) (r : RxResult Client.State) (i : Nat),
          Client.udp_rx_callback s dg = some r → r.exit = LoopExit.added i → i = k)) := by
  constructor
  · intro s hs
    obtain ⟨k, hk, h1, h2, h3⟩ := wf_front_shape s.tab (server_reachable_inv s hs).1
    refine ⟨k, hk, h1, fun i hi _ => h2 i hi, ?_⟩
    intro dg r i hr hx
    obtain ⟨K, save, _, _, rfl⟩ := server_rx_inv _ _ _ hr
    rw [server_body_exit] at hx
    exact h3 _ _ _ i hx
  · intro s hs
    obtain ⟨k, hk, h1, h2, h3⟩ := wf_front_shape s.tab (client_reachable_inv s hs)
    refine ⟨k, hk, h1, fun i hi _ => h2 i hi, ?_⟩
    intro dg r i hr hx
    obtain ⟨K, save, _, _, rfl⟩ := client_rx_inv _ _ _ hr
    rw [client_body_exit] at hx
    exact h3 _ _ _ i hx

/-- C22, at the server with two registered peers: the cells 0 and 1 are occupied, cell 2 is
empty, and the shape holds for some `k`. -/
theorem occupied_cells_first_witness :
    (¬ exServer2.tab.isEmpty 0 ∧ ¬ exServer2.tab.isEmpty 1 ∧ exServer2.tab.isEmpty 2) ∧
    ∃ k, k ≤ 10 ∧
      (∀ i, i < k → ¬ exServer2.tab.isEmpty i ∧
        exServer2.tab.remotekeys (KEY_SIZE * i) ≠ NUL) ∧
      (∀ i, k ≤ i → i < MAX_NODES → exServer2.tab.isEmpty i) ∧
      (∀ (dg : Datagram) (r : RxResult Server.State) (i : Nat),
        Server.udp_rx_callback exServer2 dg = some r → r.exit = LoopExit.added i → i = k) :=
  ⟨by decide, occupied_cells_first.1 exServer2 exServer2_reachable⟩

/-! ## C23: the all-zero endpoint -/

/-- C23. The claim fails on the code after a key of 25 characters, in the server and in the
client. The mote has registered the sender of `ABCDEFGHIJKLMNOPQRSTUVWXY hello 0` in cell 0;
cell 1 is free, and `strcpy` has left `UVWXY` in its key bytes. The datagram `UVWXY hello 0`
from the all-zero address and port 0 is taken for the sender of cell 1 and its key is
verified: the callback does not return, the server answers `abcdefghij hello 0` to the
all-zero address, and the client counts the message as received. -/
theorem zero_endpoint_verified :
    exZeroSpill.sender_addr = uip_all_zeroes_addr ∧ exZeroSpill.sender_port = 0 ∧
    strtok (rx_text exZeroSpill) = some ("UVWXY".data, "hello 0".data) ∧
    (Server.Reachable exServerK25 ∧ ¬ exServerK25.tab.isEmpty 0 ∧ exServerK25.tab.isEmpty 1 ∧
      (Server.udp_rx_callback exServerK25 exZeroSpill).map (fun r => (r.exit, r.sent)) =
        some (LoopExit.verified 1, [{ text := "abcdefghij hello 0".data, dest := 0 }])) ∧
    (Client.Reachable exClientK25 ∧ ¬ exClientK25.tab.isEmpty 0 ∧ exClientK25.tab.isEmpty 1 ∧
      (Client.udp_rx_callback exClientK25 exZeroSpill).map
          (fun r => (r.exit, r.state.rx_count)) =
        some (LoopExit.verified 1, exClientK25.rx_count + 1)) :=
  ⟨rfl, rfl, by decide, ⟨exServerK25_reachable, by decide, by decide, by decide⟩,
   ⟨exClientK25_reachable, by decide, by decide, by decide⟩⟩

end RplUdp
